import Mathlib

/-!
Verification of the search/ranking/personalization core of the `fows`
music-hub backend (`src/services/saavnApi.js`, `src/services/recommendations.js`
= `unnamed/part_015`, `src/services/personalizationModel.js` = the reranker
section of `routes/user.js`).

JavaScript strings are modelled as Lean `String`, with all operations
implemented over `String.data` (`List Char`) so that every definition is
executable by the kernel.  The Unicode character classes `\p{L}` / `\p{N}`
of the source's regexes are modelled by `Char.isAlpha` / `Char.isDigit`;
all inputs exercised by the theorems stay within this fragment.
Machine floating point appears only in the personalization reranker's
feature extractors (log10, exp, sqrt); those extractors are abstracted as
oracle parameters, while all structural computation (blending, rounding,
ordering, annotation) is embedded exactly over `ℚ`.
-/

set_option maxRecDepth 40000

namespace Fows

/-- Model of the JS word characters matched by the `/[\p{L}\p{N}]/u`
character class (letters and digits, ASCII fragment). -/
def isWordChar (c : Char) : Bool := c.isAlpha || c.isDigit

/-- Model of the JS `\w` class ( `[A-Za-z0-9_]` ), used for the `\b`
word boundaries of `canonicalSongTitle`'s keyword regex. -/
def isJsWordChar (c : Char) : Bool := c.isAlpha || c.isDigit || c = '_'

/-- `value.toLowerCase()`. -/
def lowerStr (s : String) : String := ⟨s.data.map Char.toLower⟩

/-- Splits a character list into maximal whitespace-free words
(the combined effect of `.split(/\s+/).filter(Boolean)`). -/
def splitWsAux : List Char → List Char → List (List Char)
  | [], cur => if cur.isEmpty then [] else [cur.reverse]
  | c :: rest, cur =>
    if c.isWhitespace then
      if cur.isEmpty then splitWsAux rest [] else cur.reverse :: splitWsAux rest []
    else splitWsAux rest (c :: cur)

def splitWs (l : List Char) : List (List Char) := splitWsAux l []

/-- Joins words with single spaces. -/
def joinSpace : List (List Char) → List Char
  | [] => []
  | [w] => w
  | w :: rest => w ++ ' ' :: joinSpace rest

/-- `normalizeQuery` (saavnApi.js): lowercase, collapse whitespace runs to a
single space, trim.  Implemented as "lowercase, split on whitespace, re-join
with single spaces", which is extensionally the composition
`.toLowerCase().replace(/\s+/g, ' ').trim()` of the source. -/
def normalizeQuery (s : String) : String :=
  ⟨joinSpace (splitWs (s.data.map Char.toLower))⟩

/-- `normalizeText` (recommendations.js / personalizationModel.js):
`String(value ?? '').toLowerCase().trim().replace(/\s+/g, ' ')`.  Trimming
before collapsing and collapsing before trimming produce the same string,
so this is the same function as `normalizeQuery`. -/
def normalizeText (s : String) : String := normalizeQuery s

/-- `normalizeCompact` (saavnApi.js): normalized query with every
non-alphanumeric character removed. -/
def normalizeCompact (s : String) : String :=
  ⟨(normalizeQuery s).data.filter isWordChar⟩

/-- `tokenize` (saavnApi.js): normalize, replace non-word non-space
characters by spaces, split on whitespace, drop empties. -/
def tokenize (s : String) : List String :=
  (splitWs ((normalizeQuery s).data.map
    (fun c => if isWordChar c || c.isWhitespace then c else ' '))).map (⟨·⟩)

/-- JS `String.prototype.trim()`. -/
def trimStr (s : String) : String :=
  ⟨((s.data.dropWhile Char.isWhitespace).reverse.dropWhile Char.isWhitespace).reverse⟩

/-- JS `String.prototype.startsWith(p)` on `s`. -/
def strStartsWith (s p : String) : Bool := p.data.isPrefixOf s.data

def containsSubAux (p : List Char) : List Char → Bool
  | [] => p.isEmpty
  | c :: rest => p.isPrefixOf (c :: rest) || containsSubAux p rest

/-- JS `String.prototype.includes(p)` on `s`. -/
def strIncludes (s p : String) : Bool := containsSubAux p.data s.data

/-- JS `String.prototype.split(sep)` for a single-character separator
(keeps empty fragments, as JS does). -/
def splitOnCharAux (sep : Char) : List Char → List Char → List (List Char)
  | [], cur => [cur.reverse]
  | c :: rest, cur =>
    if c = sep then cur.reverse :: splitOnCharAux sep rest []
    else splitOnCharAux sep rest (c :: cur)

def splitOnChar (sep : Char) (s : String) : List String :=
  (splitOnCharAux sep s.data []).map (⟨·⟩)

/-- `Math.abs(a - b)` for the two lengths compared in the fuzzy matchers. -/
def absDiff (a b : Nat) : Nat := max a b - min a b

/-- JS `a || b` on strings (first operand unless it is empty/falsy). -/
def jsOr (a b : String) : String := if a = "" then b else a

/-- One row-update step of the Levenshtein dynamic program: given the
previous row and the value to the left, the next cell. -/
def levRowAux (c : Char) : List Char → List Nat → Nat → List Nat
  | [], _, _ => []
  | bj :: brest, pdiag :: prest, left =>
    let pj := prest.headD 0
    let cost := if c = bj then 0 else 1
    let cur := min (pj + 1) (min (left + 1) (pdiag + cost))
    cur :: levRowAux c brest prest cur
  | _ :: _, [], _ => []

/-- `levenshteinDistance` (saavnApi.js): the standard edit-distance dynamic
program.  The source fills a full `(|a|+1) × (|b|+1)` matrix; this embedding
computes the same recurrence row by row (cell `(i,j)` =
`min(del, ins, subst)`), returning the last cell of the last row. -/
def levenshteinDistance (a b : List Char) : Nat :=
  let init := List.range (b.length + 1)
  let final := a.foldl
    (fun (st : Nat × List Nat) c =>
      let i1 := st.1 + 1
      (i1, i1 :: levRowAux c b st.2 i1))
    (0, init)
  final.2.getLastD 0

/-- `LANGUAGE_HINTS` (saavnApi.js). -/
def languageHints : List String :=
  ["hindi", "malayalam", "tamil", "telugu", "kannada", "english", "punjabi",
   "marathi", "bengali", "gujarati", "odia", "assamese", "urdu"]

/-- `QUERY_NOISE_WORDS` (saavnApi.js): the language hints plus a small
domain noise set. -/
def queryNoiseWords : List String :=
  languageHints ++
  ["song", "songs", "movie", "film", "album", "lyrics", "video", "official",
   "audio", "music", "theme", "bgm", "ost"]

def MAX_SMART_RESULTS : Nat := 40
def SMART_SEARCH_MIN_RESULTS : Nat := 8
def SEARCH_CACHE_FRESH_TTL_MS : Nat := 2 * 60 * 1000
def SEARCH_CACHE_STALE_TTL_MS : Nat := 20 * 60 * 1000
def SEARCH_CACHE_MAX_ENTRIES : Nat := 300

/-- One `{id, name}` record of `artists.primary` (the `role`/`image`/`url`
decorations of the JS objects carry no behavior in the verified code and are
omitted; a missing JS field is modelled as `""`, matching the
`String(x || '')` coercions every consumer applies). -/
structure Artist where
  id : String
  name : String
deriving DecidableEq, Repr

/-- An element of a JS `primaryArtists` array, which may hold plain strings
or artist objects (`extractArtistNames` branches on `typeof a === 'string'`). -/
inductive ArtistEntry where
  | str (s : String)
  | obj (a : Artist)
deriving DecidableEq, Repr

/-- The JS `primaryArtists` field: absent, a comma-joined string (fallback
provider shape), or an array. -/
inductive PrimaryArtistsField where
  | absent
  | str (s : String)
  | arr (entries : List ArtistEntry)
deriving DecidableEq, Repr

/-- The JS `album` field: absent, a bare string (legacy fallback shape), or
an object with `id`/`name` (a missing sub-field is `""`; the `url` member is
unused by the verified code and omitted). -/
inductive AlbumField where
  | absent
  | str (s : String)
  | obj (id : String) (name : String)
deriving DecidableEq, Repr

/-- The `_ranking` record the personalization reranker attaches.  Scores are
modelled over `ℚ`. -/
structure RankingInfo where
  finalScore : ℚ
  textRankScore : ℚ
  preferenceMatch : ℚ
  popularityScore : ℚ
  interactionScore : ℚ
  neuralScore : ℚ
deriving DecidableEq, Repr

/-- Provider-agnostic song record.  `Option String` fields model JS fields
that can be `undefined`/`null` (the `??` / `||` coalescing of the source is
reproduced at every use site).  Media url / image fields are omitted: no
verified code path reads them. -/
structure Song where
  id : Option String := none
  name : Option String := none
  title : Option String := none
  language : Option String := none
  album : AlbumField := .absent
  albumId : Option String := none
  artists : List Artist := []
  primaryArtists : PrimaryArtistsField := .absent
  year : Option String := none
  ranking : Option RankingInfo := none
deriving DecidableEq, Repr

namespace SaavnApi

/-- The precomputed searchable fields of `extractSongSearchFields`. -/
structure SongFields where
  name : String
  artists : String
  album : String
  haystack : String
  compactName : String
  compactHaystack : String
  haystackTokens : List String
deriving DecidableEq, Repr

/-- Joins strings with a single-character separator (JS `Array.join`). -/
def joinWith (sep : Char) : List String → String
  | [] => ""
  | [w] => w
  | w :: rest => w ++ ⟨[sep]⟩ ++ joinWith sep rest

/-- `String(array)` for a JS `primaryArtists` array (objects render as
`[object Object]`), as produced by `normalizeQuery(song.primaryArtists)`
when the field holds an array. -/
def primaryArtistsJsString : PrimaryArtistsField → Option String
  | .absent => none
  | .str s => some s
  | .arr entries =>
    some (joinWith ','
      (entries.map (fun e => match e with
        | .str s => s
        | .obj _ => "[object Object]")))

/-- `extractSongSearchFields` (saavnApi.js). -/
def extractSongSearchFields (song : Song) : SongFields :=
  let name := normalizeQuery ((song.name.orElse fun _ => song.title).getD "")
  let artists := normalizeQuery
    ((primaryArtistsJsString song.primaryArtists).getD
      (joinWith ' ' (song.artists.map (·.name))))
  let album := normalizeQuery
    (match song.album with
     | .obj _ nm => nm
     | .str s => s
     | .absent => "")
  let haystack := trimStr (name ++ " " ++ artists ++ " " ++ album)
  { name := name
    artists := artists
    album := album
    haystack := haystack
    compactName := normalizeCompact name
    compactHaystack := normalizeCompact haystack
    haystackTokens := tokenize haystack }

/-- `resolveMaxEditDistance` (saavnApi.js). -/
def resolveMaxEditDistance (length : Nat) : Nat :=
  if length ≥ 10 then 3 else if length ≥ 6 then 2 else 1

/-- `hasFuzzyTokenMatch` (saavnApi.js). -/
def hasFuzzyTokenMatch (queryTerm : String) (targetTokens : List String) : Bool :=
  targetTokens.any fun token =>
    if token.data.length < 2 then false
    else
      let maxDistance := if queryTerm.data.length ≥ 7 then 2 else 1
      if absDiff queryTerm.data.length token.data.length > maxDistance then false
      else if queryTerm.data.head? ≠ token.data.head? then false
      else levenshteinDistance queryTerm.data token.data ≤ maxDistance

/-- The query terms after noise-word filtering
(`tokenize(query).filter(t => !QUERY_NOISE_WORDS.has(t))`). -/
def smartQueryTerms (query : String) : List String :=
  (tokenize query).filter (fun t => ¬ queryNoiseWords.contains t)

/-- `effectiveTerms`: the noise-filtered terms, or all tokens when
filtering removed everything. -/
def smartEffectiveTerms (query : String) : List String :=
  if (smartQueryTerms query).isEmpty then tokenize query else smartQueryTerms query

/-- `minimumTermMatches` for a query (0 when there are no effective terms;
otherwise `max(1, effective − maxMissing)` with one miss allowed for
multi-term queries). -/
def minimumTermMatches (query : String) : Nat :=
  let n := (smartEffectiveTerms query).length
  if n = 0 then 0 else max 1 (n - (if n > 1 then 1 else 0))

/-- The per-term matching loop of `scoreSongMatch`: accumulated
`(score, directMatches, fuzzyMatches)`. -/
def termTally (f : SongFields) (query : String) : Int × Nat × Nat :=
  (smartEffectiveTerms query).foldl
    (fun acc term =>
      if strIncludes f.name term then (acc.1 + 20, acc.2.1 + 1, acc.2.2)
      else if strIncludes f.artists term then (acc.1 + 13, acc.2.1 + 1, acc.2.2)
      else if strIncludes f.album term then (acc.1 + 10, acc.2.1 + 1, acc.2.2)
      else if hasFuzzyTokenMatch term f.haystackTokens then (acc.1 + 6, acc.2.1, acc.2.2 + 1)
      else acc)
    ((0 : Int), (0 : Nat), (0 : Nat))

/-- `directMatches + fuzzyMatches` of the term loop. -/
def totalTermMatches (f : SongFields) (query : String) : Nat :=
  (termTally f query).2.1 + (termTally f query).2.2

/-- `hasTermCoverage`: vacuous for queries with no effective terms. -/
def hasTermCoverage (f : SongFields) (query : String) : Bool :=
  (smartEffectiveTerms query).length = 0 ∨
    totalTermMatches f query ≥ minimumTermMatches query

/-- The `{score, matchTier}` record `scoreSongMatch` returns (tiers:
EXACT = 0, STARTS_WITH = 1, CONTAINS = 2, FUZZY = 3). -/
structure MatchResult where
  score : Int
  matchTier : Nat
deriving DecidableEq, Repr

/-- The EXACT-tier test: `name === query` or compact equality. -/
def exactTierCond (f : SongFields) (query : String) : Bool :=
  f.name = query ||
    (normalizeCompact query ≠ "" && f.compactName = normalizeCompact query)

/-- The STARTS_WITH-tier test. -/
def startsTierCond (f : SongFields) (query : String) : Bool :=
  strStartsWith f.name query ||
    (normalizeCompact query ≠ "" &&
      strStartsWith f.compactName (normalizeCompact query))

/-- The CONTAINS-tier test (name, haystack, or compact containment). -/
def containsTierCond (f : SongFields) (query : String) : Bool :=
  strIncludes f.name query || strIncludes f.haystack query ||
    (normalizeCompact query ≠ "" &&
      (strIncludes f.compactName (normalizeCompact query) ||
       strIncludes f.compactHaystack (normalizeCompact query)))

/-- `hasCompactFuzzy`: both compact strings non-empty, length gap and
Levenshtein distance within `resolveMaxEditDistance(compactQuery.length)`. -/
def hasCompactFuzzy (f : SongFields) (query : String) : Bool :=
  let compactQuery := normalizeCompact query
  let maxCompactDistance := resolveMaxEditDistance compactQuery.data.length
  compactQuery ≠ "" && f.compactName ≠ "" &&
    absDiff compactQuery.data.length f.compactName.data.length ≤ maxCompactDistance &&
    levenshteinDistance compactQuery.data f.compactName.data ≤ maxCompactDistance

/-- The tier-selection cascade of `scoreSongMatch`: `(tier, tier bonus)`,
`none` when no tier applies. -/
def matchTierOf (f : SongFields) (query : String) : Option (Nat × Int) :=
  if exactTierCond f query then some (0, 260)
  else if startsTierCond f query then some (1, 200)
  else if containsTierCond f query then some (2, 140)
  else if hasTermCoverage f query || hasCompactFuzzy f query ||
      (termTally f query).2.2 > 0 then
    some (3, 80)
  else none

/-- `scoreSongMatch` (saavnApi.js). -/
def scoreSongMatch (song : Song) (query : String) (variantIndex : Nat)
    (sourceWeight : Int) (languageHint : Option String)
    (preferredLanguageSet : List String) : Option MatchResult :=
  let f := extractSongSearchFields song
  match matchTierOf f query with
  | none => none
  | some (tier, bonus) =>
    if tier = 3 ∧ (smartEffectiveTerms query).length ≥ 2 ∧
        hasTermCoverage f query = false then none
    else if (smartEffectiveTerms query).length ≥ 2 ∧
        totalTermMatches f query = 0 ∧ tier > 2 then none
    else
      let language := normalizeQuery (song.language.getD "")
      let hintDelta : Int := match languageHint with
        | none => 0
        | some hint => if language = hint then 18 else -4
      let prefDelta : Int :=
        if preferredLanguageSet ≠ [] then
          if preferredLanguageSet.contains language then 28 else -2
        else 0
      some { score := (termTally f query).1 + bonus + hintDelta + prefDelta +
               sourceWeight - (variantIndex : Int) * 10 - (if tier = 3 then 10 else 0)
             matchTier := tier }

/-- One value of the `ranked` map (`id -> { song, score, matchTier }`). -/
structure RankedEntry where
  song : Song
  score : Int
  matchTier : Nat
deriving DecidableEq, Repr

/-- `compareRankedEntries` (saavnApi.js): ascending tier, then descending
score (negative means the first argument ranks better). -/
def compareRankedEntries (a b : RankedEntry) : Int :=
  if a.matchTier ≠ b.matchTier then (a.matchTier : Int) - b.matchTier
  else b.score - a.score

/-- The ordering `compareRankedEntries` induces: `a` sorts no later than `b`. -/
def rankedLE (a b : RankedEntry) : Prop :=
  a.matchTier < b.matchTier ∨ (a.matchTier = b.matchTier ∧ b.score ≤ a.score)

instance : DecidableRel rankedLE := fun a b => by unfold rankedLE; infer_instance

instance : IsTotal RankedEntry rankedLE :=
  ⟨by intro a b; unfold rankedLE; omega⟩

instance : IsTrans RankedEntry rankedLE :=
  ⟨by intro a b c hab hbc; unfold rankedLE at *; omega⟩

/-- The `ranked` JS `Map`, modelled as an insertion-ordered association
list (`Map.set` of an existing key updates in place, of a new key appends). -/
abbrev RankedMap := List (String × RankedEntry)

def lookupRanked (m : RankedMap) (k : String) : Option RankedEntry :=
  (m.find? (fun p => p.1 = k)).map (·.2)

def setRanked (m : RankedMap) (k : String) (v : RankedEntry) : RankedMap :=
  if (m.find? (fun p => p.1 = k)).isSome then
    m.map (fun p => if p.1 = k then (k, v) else p)
  else m ++ [(k, v)]

/-- `normalizePrimarySong` (saavnApi.js): rejects records whose trimmed id,
or trimmed `name ?? title`, is empty; otherwise returns the record as-is. -/
def normalizePrimarySong (raw : Song) : Option Song :=
  let id := trimStr (raw.id.getD "")
  let name := trimStr ((raw.name.orElse fun _ => raw.title).getD "")
  if id = "" ∨ name = "" then none else some raw

/-- The per-id decision of `addRankedSongs`: a new id is inserted, an
existing id keeps the entry with the better `(matchTier, score)`. -/
def upsertRanked (m : RankedMap) (key : String) (candidate : RankedEntry) : RankedMap :=
  match lookupRanked m key with
  | none => setRanked m key candidate
  | some existing =>
    if compareRankedEntries candidate existing < 0 then
      setRanked m key candidate
    else m

/-- `addRankedSongs` (saavnApi.js): normalize each raw record, score it,
and upsert keeping the better `(matchTier, score)` entry per id.  (The
`upsertLocalSongIndex` side effect is modelled separately by
`upsertLocalSongIndex`.) -/
def addRankedSongs (ranked : RankedMap) (songs : List Song) (query : String)
    (variantIndex : Nat) (sourceWeight : Int) (languageHint : Option String)
    (preferredLanguageSet : List String) : RankedMap :=
  songs.foldl
    (fun m rawSong =>
      match normalizePrimarySong rawSong with
      | none => m
      | some song =>
        match scoreSongMatch song query variantIndex sourceWeight
            languageHint preferredLanguageSet with
        | none => m
        | some mr =>
          upsertRanked m (song.id.getD "")
            { song := song, score := mr.score, matchTier := mr.matchTier })
    ranked

/-- `buildRankedOutput` (saavnApi.js): values in insertion order, sorted by
`compareRankedEntries`, truncated to `MAX_SMART_RESULTS`.  (JS `Array.sort`
with a consistent comparator and `List.insertionSort` both produce a sorted
permutation.) -/
def buildRankedOutputEntries (ranked : RankedMap) : List RankedEntry :=
  ((ranked.map (·.2)).insertionSort rankedLE).take MAX_SMART_RESULTS

def buildRankedOutput (ranked : RankedMap) : List Song :=
  (buildRankedOutputEntries ranked).map (·.song)

/-- One entry of the local song index (the searchable fields precomputed at
insertion; timestamps carried for LRU eviction). -/
structure LocalIndexEntry where
  song : Song
  fields : SongFields
  updatedAt : Nat
  lastAccessAt : Nat
deriving DecidableEq, Repr

abbrev LocalIndex := List (String × LocalIndexEntry)

def setLocalIndex (m : LocalIndex) (k : String) (v : LocalIndexEntry) : LocalIndex :=
  if (m.find? (fun p => p.1 = k)).isSome then
    m.map (fun p => if p.1 = k then (k, v) else p)
  else m ++ [(k, v)]

/-- `upsertLocalSongIndex` (saavnApi.js): only records passing
`normalizePrimarySong` with a non-empty normalized name are inserted.
(The `trimLocalSongIndex` LRU trim only deletes entries and is irrelevant
to the invariants stated below.) -/
def upsertLocalSongIndex (idx : LocalIndex) (song : Song) (now : Nat) : LocalIndex :=
  match normalizePrimarySong song with
  | none => idx
  | some normalizedSong =>
    let fields := extractSongSearchFields normalizedSong
    if fields.name = "" then idx
    else
      setLocalIndex idx (normalizedSong.id.getD "")
        { song := normalizedSong, fields := fields, updatedAt := now, lastAccessAt := now }

/-- `mergeUniqueSongs` (saavnApi.js): dedup by trimmed id, falling back to
the normalized name when the id is empty. -/
def mergeUniqueSongs (songLists : List (List Song)) : List Song :=
  (songLists.foldl
    (fun (acc : List Song × List String) list =>
      list.foldl
        (fun (acc : List Song × List String) song =>
          let idKey := trimStr (song.id.getD "")
          let nameKey := normalizeQuery ((song.name.orElse fun _ => song.title).getD "")
          let dedupeKey := jsOr idKey nameKey
          if dedupeKey = "" then acc
          else if acc.2.contains dedupeKey then acc
          else (acc.1 ++ [song], acc.2 ++ [dedupeKey]))
        acc)
    ([], [])).1

/-- The raw JSON record of the fallback provider (`/result/?query=`), with
the fields `normalizeFallbackSong` reads.  Url/image fields are omitted:
they only populate output decorations no verified property reads. -/
structure FallbackRaw where
  id : Option String := none
  songid : Option String := none
  song : Option String := none
  title : Option String := none
  primary_artists : Option String := none
  singers : Option String := none
  albumid : Option String := none
  album : Option String := none
  language : Option String := none
  year : Option String := none
deriving DecidableEq, Repr

/-- `normalizeFallbackSong` (saavnApi.js) restricted to the fields the
verified code reads (`artists.primary` ids are `` `${id}_a${index}` ``). -/
def normalizeFallbackSong (raw : FallbackRaw) : Song :=
  let id := trimStr ((raw.id.orElse fun _ => raw.songid).getD "")
  let name := trimStr ((raw.song.orElse fun _ => raw.title).getD "")
  let artistText := (raw.primary_artists.orElse fun _ => raw.singers).getD ""
  let artistNames := ((splitOnChar ',' artistText).map trimStr).filter (· ≠ "")
  let artistsPrimary := (artistNames.enum).map
    (fun p => Artist.mk (id ++ "_a" ++ toString p.1) p.2)
  { id := some id
    name := some name
    title := none
    language := some (lowerStr (raw.language.getD ""))
    album := .obj (trimStr (raw.albumid.getD "")) (trimStr (raw.album.getD ""))
    albumId := none
    artists := artistsPrimary
    primaryArtists := .str artistText
    year := some (raw.year.getD "") }

/-- `searchSongsOnlyFallback` (saavnApi.js) applied to a decoded payload:
`none` models a non-array JSON body, and a `none` element a non-object
array entry (both dropped).  Records whose id or name is empty are
filtered out. -/
def searchSongsOnlyFallback (payload : Option (List (Option FallbackRaw))) : List Song :=
  match payload with
  | none => []
  | some items =>
    ((items.filterMap id).map normalizeFallbackSong).filter
      (fun s => s.id.getD "" ≠ "" && s.name.getD "" ≠ "")

/-- The upstream environment `searchSongsOnly` runs against: the primary
songs-endpoint results (already unwrapped from `payload.data.results`) and
the fallback provider's raw JSON payload, each either a value or a network
failure. -/
structure SongsOnlyEnv where
  primary : String → Nat → Except Unit (List Song)
  fallbackPayload : String → Except Unit (Option (List (Option FallbackRaw)))

/-- `searchSongsOnly` (saavnApi.js), modelled at the level of the result
list (`payload.data.results`): primary first; on primary failure the
fallback is consulted (and its failure propagates); a thin primary page-1
result is topped up with fallback songs via `mergeUniqueSongs`. -/
def searchSongsOnly (env : SongsOnlyEnv) (query : String) (page : Nat := 1) :
    Except Unit (List Song) :=
  match env.primary query page with
  | .error _ =>
    match env.fallbackPayload query with
    | .error e' => .error e'
    | .ok p => .ok (searchSongsOnlyFallback p)
  | .ok primarySongs =>
    if primarySongs.length ≥ SMART_SEARCH_MIN_RESULTS ∨ page > 1 then .ok primarySongs
    else
      let fallbackSongs :=
        match env.fallbackPayload query with
        | .error _ => []
        | .ok p => searchSongsOnlyFallback p
      if fallbackSongs.isEmpty then .ok primarySongs
      else .ok (mergeUniqueSongs [primarySongs, fallbackSongs])

/-- One smart-search cache entry (`{ updatedAt, lastAccessAt, data }`). -/
structure CacheEntry where
  updatedAt : Nat
  lastAccessAt : Nat
  data : List Song
deriving DecidableEq, Repr

/-- The `smartSearchCache` JS `Map`, insertion-ordered. -/
abbrev SmartCache := List (String × CacheEntry)

def lookupCache (m : SmartCache) (k : String) : Option CacheEntry :=
  (m.find? (fun p => p.1 = k)).map (·.2)

def setCache (m : SmartCache) (k : String) (v : CacheEntry) : SmartCache :=
  if (m.find? (fun p => p.1 = k)).isSome then
    m.map (fun p => if p.1 = k then (k, v) else p)
  else m ++ [(k, v)]

def eraseCache (m : SmartCache) (k : String) : SmartCache :=
  m.filter (fun p => p.1 ≠ k)

/-- `normalizeLanguageList` (saavnApi.js): normalize, drop empties, dedup
(first occurrence), sort lexicographically (JS default string sort). -/
def normalizeLanguageList (values : List String) : List String :=
  (((values.map normalizeQuery).filter (· ≠ "")).dedup).insertionSort
    (fun a b => ¬ b < a)

/-- `buildSmartSearchCacheKey` (saavnApi.js). -/
def buildSmartSearchCacheKey (query : String) (preferredLanguages : List String) : String :=
  query ++ "::" ++ (if preferredLanguages ≠ [] then joinWith ',' preferredLanguages else "_")

/-- `getCachedSmartSearch` (saavnApi.js): returns `(data, fresh?)` and the
updated cache — entries older than `STALE_TTL` are deleted on lookup,
served entries get `lastAccessAt` refreshed.  Wall-clock time is a `Nat`
(ms); `now ≥ updatedAt` always holds along real executions. -/
def getCachedSmartSearch (cache : SmartCache) (key : String) (now : Nat) :
    Option (List Song × Bool) × SmartCache :=
  match lookupCache cache key with
  | none => (none, cache)
  | some item =>
    let ageMs := now - item.updatedAt
    if ageMs > SEARCH_CACHE_STALE_TTL_MS then (none, eraseCache cache key)
    else
      (some (item.data, ageMs ≤ SEARCH_CACHE_FRESH_TTL_MS),
       setCache cache key { item with lastAccessAt := now })

/-- The first minimal-`lastAccessAt` key of the cache (JS iterates in
insertion order with a strict `<`, so the first minimum wins). -/
def findOldestKey (cache : SmartCache) : Option String :=
  (cache.foldl
    (fun (best : Option (String × Nat)) p =>
      match best with
      | none => some (p.1, p.2.lastAccessAt)
      | some b => if p.2.lastAccessAt < b.2 then some (p.1, p.2.lastAccessAt) else b)
    none).map (·.1)

/-- `trimSmartSearchCache` (saavnApi.js): when over the cap, delete the
least-recently-accessed entry.  The JS guard `if (oldestKey)` skips the
deletion when the chosen key is the empty string (falsy). -/
def trimSmartSearchCache (cache : SmartCache) : SmartCache :=
  if cache.length ≤ SEARCH_CACHE_MAX_ENTRIES then cache
  else
    match findOldestKey cache with
    | none => cache
    | some k => if k = "" then cache else eraseCache cache k

/-- `setCachedSmartSearch` (saavnApi.js). -/
def setCachedSmartSearch (cache : SmartCache) (key : String) (data : List Song)
    (now : Nat) : SmartCache :=
  trimSmartSearchCache (setCache cache key
    { updatedAt := now, lastAccessAt := now, data := data })

/-- The outcome of `searchSongsSmart` as observed by one caller: the
returned (or thrown) value, the cache afterwards, and whether this call
started a refresh computation. -/
structure SmartResult where
  result : Except Unit (List Song)
  cache : SmartCache
  refreshStarted : Bool
deriving Repr

/-- `searchSongsSmart` (saavnApi.js), with the upstream computation
(`computeSmartSearchResults`) abstracted as its outcome `compute`.
Paths:
* empty normalized query → `[]`, no cache access;
* fresh hit → cached data;
* stale hit, `waitForFresh = false` → cached data now, plus a background
  refresh whose success overwrites the entry and whose failure is only
  logged (the entry is left in place either way);
* stale hit with `waitForFresh = true`, or miss → synchronous refresh:
  its success is cached and returned, its failure propagates to the
  caller and leaves the cache entry (if any) untouched. -/
def searchSongsSmart (query : String) (waitForFresh : Bool)
    (preferredLanguages : List String) (cache : SmartCache) (now : Nat)
    (compute : Except Unit (List Song)) : SmartResult :=
  let normalizedQuery := normalizeQuery query
  if normalizedQuery = "" then ⟨.ok [], cache, false⟩
  else
    let key := buildSmartSearchCacheKey normalizedQuery
      (normalizeLanguageList preferredLanguages)
    let looked := getCachedSmartSearch cache key now
    match looked.1 with
    | some (data, fresh) =>
      if fresh then ⟨.ok data, looked.2, false⟩
      else if waitForFresh = false then
        match compute with
        | .ok out => ⟨.ok data, setCachedSmartSearch looked.2 key out now, true⟩
        | .error _ => ⟨.ok data, looked.2, true⟩
      else
        match compute with
        | .ok out => ⟨.ok out, setCachedSmartSearch looked.2 key out now, true⟩
        | .error e => ⟨.error e, looked.2, true⟩
    | none =>
      match compute with
      | .ok out => ⟨.ok out, setCachedSmartSearch looked.2 key out now, true⟩
      | .error e => ⟨.error e, looked.2, true⟩

/-!
### Single-flight protocol

`refreshSmartSearch` checks `smartSearchInFlight` and, in the same
synchronous (hence atomic) region, either returns the stored promise or
stores a new one; the promise's completion — fulfilled or rejected —
deletes the marker (`promise.then(delete, delete)`).
`triggerBackgroundSmartSearchRefresh` is the `joinRefresh`-or-`startRefresh`
composition of the same two atomic outcomes.  The protocol is modelled as a
labelled transition system over the set of in-flight keys; an event that the
code cannot perform in a state yields `none` (no such transition).
-/

/-- Events of the single-flight protocol. -/
inductive SFEvent where
  | startRefresh (key : String)
  | joinRefresh (key : String)
  | complete (key : String) (ok : Bool)
deriving DecidableEq, Repr

/-- One atomic step: a refresh can only start when no computation for the
key is in flight; a caller can only join (receive the stored promise) when
one is; completion — success or failure alike — removes the marker. -/
def sfStep (inFlight : List String) : SFEvent → Option (List String)
  | .startRefresh k => if k ∈ inFlight then none else some (k :: inFlight)
  | .joinRefresh k => if k ∈ inFlight then some inFlight else none
  | .complete k _ => if k ∈ inFlight then some (inFlight.erase k) else none

/-- Runs a trace of events from a state; `none` when some event was not
enabled. -/
def sfExec (inFlight : List String) : List SFEvent → Option (List String)
  | [] => some inFlight
  | e :: rest =>
    match sfStep inFlight e with
    | none => none
    | some s => sfExec s rest

end SaavnApi

namespace Recommendations

/-- `extractArtistNames` (recommendations.js): names from `primaryArtists`
(comma-split when a string, `.name || ''` per entry when an array) and from
`artists.primary` (`if (a.name)`), with the final `filter(Boolean)`. -/
def extractArtistNames (song : Song) : List String :=
  (((match song.primaryArtists with
     | .absent => []
     | .str s => (splitOnChar ',' s).map trimStr
     | .arr entries => entries.map (fun e => match e with
       | .str s => s
       | .obj a => a.name)) ++
    song.artists.map (·.name)).filter (· ≠ ""))

/-- `extractArtistIds` (recommendations.js): trimmed non-empty ids from
`artists.primary` and from `primaryArtists` when it is an array (a plain
string entry has no `.id`), deduplicated (JS `Set`). -/
def extractArtistIds (song : Song) : List String :=
  ((song.artists.map (fun a => trimStr a.id) ++
    (match song.primaryArtists with
     | .arr entries => entries.map (fun e => match e with
       | .str _ => ""
       | .obj a => trimStr a.id)
     | _ => [])).filter (· ≠ "")).dedup

/-- Drops characters up to and including the first `close`; `none` when
`close` does not occur. -/
def dropThrough (close : Char) : List Char → Option (List Char)
  | [] => none
  | c :: rest => if c = close then some rest else dropThrough close rest

/-- The global non-greedy bracket strip `/\((.*?)\)/g` (resp. `[...]`):
scanning left to right, each opener with a later closer is replaced —
content included — by one space; an opener with no closer stays literal.
Implemented as a single pass buffering the segment after an opener. -/
def stripDelimsAux (op cl : Char) : List Char → Option (List Char) → List Char
  | [], none => []
  | [], some buf => op :: buf.reverse
  | c :: rest, none =>
    if c = op then stripDelimsAux op cl rest (some [])
    else c :: stripDelimsAux op cl rest none
  | c :: rest, some buf =>
    if c = cl then ' ' :: stripDelimsAux op cl rest none
    else stripDelimsAux op cl rest (some (c :: buf))

def stripDelims (op cl : Char) (l : List Char) : List Char :=
  stripDelimsAux op cl l none

/-- The decorator keywords of `canonicalSongTitle`'s
`\b(remix|version|live|slowed|reverb|karaoke|instrumental|lofi|cover)\b`. -/
def dupVibeKeywords : List String :=
  ["remix", "version", "live", "slowed", "reverb", "karaoke",
   "instrumental", "lofi", "cover"]

/-- Emits a completed `\w`-word, replaced by a space when it is one of the
keywords. -/
def flushWord (kws : List String) (cur : List Char) : List Char :=
  let w := cur.reverse
  if w.isEmpty then [] else if kws.contains ⟨w⟩ then [' '] else w

/-- `\b(kw1|...)\b`-replacement by a space: maximal `\w`-runs equal to a
keyword are replaced, everything else is kept. -/
def replaceKeywordsAux (kws : List String) : List Char → List Char → List Char
  | [], cur => flushWord kws cur
  | c :: rest, cur =>
    if isJsWordChar c then replaceKeywordsAux kws rest (c :: cur)
    else flushWord kws cur ++ c :: replaceKeywordsAux kws rest []

def replaceKeywords (kws : List String) (l : List Char) : List Char :=
  replaceKeywordsAux kws l []

/-- `canonicalSongTitle` (recommendations.js): normalize, strip `(...)` and
`[...]` segments, strip decorator keywords, replace remaining punctuation
by spaces, collapse and trim. -/
def canonicalSongTitle (value : String) : String :=
  let normalized := normalizeText value
  if normalized = "" then ""
  else
    ⟨joinSpace (splitWs
      ((replaceKeywords dupVibeKeywords
        (stripDelims '[' ']' (stripDelims '(' ')' normalized.data))).map
        (fun c => if isWordChar c || c.isWhitespace then c else ' ')))⟩

/-- The resolved current-song context of `resolveCurrentSongContext`
(artist names are already normalized, the id/album fields trimmed, exactly
as that function leaves them). -/
structure NextTrackContext where
  songId : String := ""
  language : String := ""
  genre : String := ""
  artistIds : List String := []
  artistNames : List String := []
  albumId : String := ""
  albumName : String := ""
  title : String := ""
deriving DecidableEq, Repr

/-- The candidate's album id: `String(song?.album?.id || song?.albumId || '').trim()`. -/
def songAlbumId (song : Song) : String :=
  trimStr (jsOr (match song.album with
    | .obj id _ => id
    | _ => "") (song.albumId.getD ""))

/-- The candidate's album name:
`normalizeText(song?.album?.name || song?.album || '')`.  For an album
object with an empty/absent `name` the JS `||` falls through to the object
itself, which `String()` renders as `[object Object]`. -/
def songAlbumName (song : Song) : String :=
  normalizeText (match song.album with
    | .obj _ nm => jsOr nm "[object Object]"
    | .str s => s
    | .absent => "")

/-- `isSameArtist` (recommendations.js). -/
def isSameArtist (song : Song) (context : NextTrackContext) : Bool :=
  (extractArtistIds song).any (fun aid => context.artistIds.contains aid) ||
  ((extractArtistNames song).map normalizeText).any
    (fun nm => context.artistNames.contains nm)

/-- `isSameAlbum` (recommendations.js): equality only counts when both
sides of the compared field are non-empty. -/
def isSameAlbum (song : Song) (context : NextTrackContext) : Bool :=
  (context.albumId ≠ "" && songAlbumId song ≠ "" &&
    context.albumId = songAlbumId song) ||
  (context.albumName ≠ "" && songAlbumName song ≠ "" &&
    context.albumName = songAlbumName song)

/-- The candidate's canonical title
(`canonicalSongTitle(song?.name || song?.title || '')`). -/
def candidateCanonicalTitle (song : Song) : String :=
  canonicalSongTitle (jsOr (song.name.getD "") (song.title.getD ""))

/-- `isDuplicateVibe` (recommendations.js): canonical titles equal, or the
candidate's canonical title contains the current one when the latter has
at least 6 characters; vacuous when either canonical title is empty. -/
def isDuplicateVibe (song : Song) (context : NextTrackContext) : Bool :=
  let currentCanonical := canonicalSongTitle context.title
  let candidateCanonical := candidateCanonicalTitle song
  if currentCanonical = "" || candidateCanonical = "" then false
  else if currentCanonical = candidateCanonical then true
  else currentCanonical.data.length ≥ 6 &&
    strIncludes candidateCanonical currentCanonical

/-- `validateNextTrackCandidate` (recommendations.js).  The source is an
early-return chain of rejections; a candidate passes exactly when every
rejection test fails, which this conjunction states directly. -/
def validateNextTrackCandidate (context : NextTrackContext)
    (recentSongIds : List String) (song : Song) : Bool :=
  let songId := trimStr (song.id.getD "")
  songId ≠ "" &&
  !recentSongIds.contains songId &&
  !(context.language ≠ "" && normalizeText (song.language.getD "") ≠ context.language) &&
  !isSameArtist song context &&
  !isSameAlbum song context &&
  !isDuplicateVibe song context

/-- The recent-exclusion set of `generateNextSongRecommendations`: the
`songId`s of the last 40 plays and skips (absent/empty ids filtered by
`.filter(Boolean)`) plus the current song's id when known. -/
def buildRecentSongIds (context : NextTrackContext)
    (recentPlayIds recentSkipIds : List (Option String)) : List String :=
  (((recentPlayIds ++ recentSkipIds).filterMap id).filter (· ≠ "")).dedup ++
    (if context.songId ≠ "" then [context.songId] else [])

/-- `mergeUniqueSongs` (recommendations.js): dedup by trimmed id; songs
without an id are dropped. -/
def mergeUniqueSongs (songLists : List (List Song)) : List Song :=
  (songLists.foldl
    (fun (acc : List Song × List String) list =>
      list.foldl
        (fun (acc : List Song × List String) song =>
          let id := trimStr (song.id.getD "")
          if id = "" then acc
          else if acc.2.contains id then acc
          else (acc.1 ++ [song], acc.2 ++ [id]))
        acc)
    ([], [])).1

/-- The deterministic filtering stage of `generateNextSongRecommendations`:
merge the per-seed smart-search results, keep the candidates that pass
`validateNextTrackCandidate` against the context and the recent-exclusion
set.  (The subsequent score-sort, reranker pass and `slice(0, limit)` only
reorder, annotate and truncate this pool — they add no song to it.) -/
def nextTrackCandidatePool (seedResults : List (List Song))
    (context : NextTrackContext)
    (recentPlayIds recentSkipIds : List (Option String)) : List Song :=
  (mergeUniqueSongs seedResults).filter
    (validateNextTrackCandidate context
      (buildRecentSongIds context recentPlayIds recentSkipIds))

/-- `generateRecommendations`' candidate collection (recommendations.js):
one `searchSongsOnly` call per seed query, each wrapped in
`.catch(() => ({data: {results: []}}))` and gathered with
`Promise.allSettled` — a failing seed contributes an empty list. -/
def collectCandidateSongs (env : SaavnApi.SongsOnlyEnv)
    (queries : List String) : List (List Song) :=
  queries.map (fun q =>
    match SaavnApi.searchSongsOnly env q with
    | .ok songs => songs
    | .error _ => [])

/-- Modelled from the spec (§4.5 step 3: "Run `smartSearch` on each seed in
parallel"): the candidate collection the spec describes, using the Smart
Search Engine (`searchSongsSmart`, here against an empty cache with the
computation outcome supplied by `smartCompute`) instead of
`searchSongsOnly`.  Used only to compare the spec's wording with the
source's collection. -/
def collectCandidateSongsViaSmart
    (smartCompute : String → Except Unit (List Song))
    (queries : List String) : List (List Song) :=
  queries.map (fun q =>
    match (SaavnApi.searchSongsSmart q false [] [] 0 (smartCompute q)).result with
    | .ok songs => songs
    | .error _ => [])

end Recommendations

namespace SaavnApi

/-- A sequence of `setCachedSmartSearch` operations
(`(cache key, data, wall-clock time)` each), applied in order. -/
def setCachedSmartSearchOps (ops : List (String × List Song × Nat))
    (cache : SmartCache) : SmartCache :=
  ops.foldl (fun c op => setCachedSmartSearch c op.1 op.2.1 op.2.2) cache

/-- All keys of a cache are non-empty.  This holds for every key the
program ever passes to `setCachedSmartSearch`: the only call site uses
`buildSmartSearchCacheKey`, whose output contains `"::"`. -/
def cacheKeysNonempty (cache : SmartCache) : Prop := ∀ p ∈ cache, p.1 ≠ ""

/-- The invariant of the `ranked` map: insertion keys are distinct, and
each entry is stored under its own song's id. -/
def RankedInv (m : RankedMap) : Prop :=
  (m.map (·.1)).Nodup ∧ ∀ p ∈ m, p.2.song.id.getD "" = p.1

end SaavnApi

namespace Personalization

/-- `clamp01` (personalizationModel.js): `Math.min(1, Math.max(0, x))`. -/
def clamp01 (x : ℚ) : ℚ := min 1 (max 0 x)

/-- `Number(x.toFixed(4))`: rounding to an integer numerator over 10⁴.
`toFixed` rounds half away from zero; on the non-negative scores produced
by the reranker this is `⌊x·10⁴ + 1/2⌋`, computed here on the exact
rational as `(2·num + den) fdiv (2·den)`. -/
def jsRound (x : ℚ) : ℤ := (2 * x.num + x.den).fdiv (2 * x.den)

def round4 (x : ℚ) : ℚ := (jsRound (x * 10000) : ℚ) / 10000

/-- The floating-point feature extractors of `rerankSongsForUser`
(embedding cosine similarity, language/artist/popularity/interaction
scores, and the fixed-weight neural head's output), abstracted as exact
rational values per `(index, song)`.  The skip-risk and query-intent
features feed only the neural head and are absorbed into `neuralScore`. -/
structure RerankFeatureVals where
  embeddingSimilarity : ℚ
  languageScore : ℚ
  artistScore : ℚ
  popularityScore : ℚ
  interactionScore : ℚ
  neuralScore : ℚ
deriving DecidableEq, Repr

/-- The `_ranking` record built for the song at `index` of `total`:
`textRankScore = 1 − index / max(total − 1, 1)`,
`preferenceMatch = clamp01((embed + lang + artist)/3)`,
`finalScore = clamp01(0.4·textRank + 0.3·preference + 0.2·popularity +
0.1·interaction)·0.65 + nn·0.35`, every field rounded to 4 decimals. -/
def mkRanking (index total : Nat) (fv : RerankFeatureVals) : RankingInfo :=
  let textRank : ℚ := 1 - (index : ℚ) / max ((total : ℚ) - 1) 1
  let preferenceMatch := clamp01
    ((fv.embeddingSimilarity + fv.languageScore + fv.artistScore) / 3)
  let finalScore :=
    clamp01 (textRank * (4/10) + preferenceMatch * (3/10) +
      fv.popularityScore * (2/10) + fv.interactionScore * (1/10)) * (65/100) +
    fv.neuralScore * (35/100)
  { finalScore := round4 finalScore
    textRankScore := round4 textRank
    preferenceMatch := round4 preferenceMatch
    popularityScore := round4 fv.popularityScore
    interactionScore := round4 fv.interactionScore
    neuralScore := round4 fv.neuralScore }

/-- `{...song, _ranking}`: the spread copy with the annotation attached. -/
def setRanking (song : Song) (r : RankingInfo) : Song := { song with ranking := some r }

/-- `song._ranking?.finalScore ?? 0`, as read by the sort comparator. -/
def rankingFinal (song : Song) : ℚ := (song.ranking.map (·.finalScore)).getD 0

/-- The descending-`finalScore` order of the final sort. -/
def rankedDesc (a b : Song) : Prop := rankingFinal b ≤ rankingFinal a

instance : DecidableRel rankedDesc := fun a b => by unfold rankedDesc; infer_instance

instance : IsTotal Song rankedDesc :=
  ⟨by intro a b; unfold rankedDesc; exact le_total _ _⟩

instance : IsTrans Song rankedDesc :=
  ⟨by intro a b c hab hbc; unfold rankedDesc at *; exact le_trans hbc hab⟩

/-- The `safeSongs.map((song, index) => ...)` annotation pass, carrying the
running index. -/
def annotateSongs (feats : Nat → Song → RerankFeatureVals) (total : Nat) :
    Nat → List Song → List Song
  | _, [] => []
  | i, s :: rest =>
    setRanking s (mkRanking i total (feats i s)) :: annotateSongs feats total (i + 1) rest

/-- `rerankSongsForUser` (personalizationModel.js): pass-through for a
falsy uid or an empty list; otherwise annotate every song with its
`_ranking` and sort by descending (rounded) `finalScore`.  The profile
fetch, embeddings and neural head are abstracted into `feats`; the `query`
and `preferredLanguages` arguments influence only those feature values.
JS `Array.sort` with this comparator produces a sorted permutation, as
`List.insertionSort` does. -/
def rerankSongsForUser (uid : Option String) (songs : List Song)
    (feats : Nat → Song → RerankFeatureVals) : List Song :=
  if uid.getD "" = "" ∨ songs.isEmpty then songs
  else (annotateSongs feats songs.length 0 songs).insertionSort rankedDesc

end Personalization

deriving instance DecidableEq for Except

namespace SaavnApi

/-- The cache key `searchSongsSmart` derives from its inputs. -/
def smartSearchCacheKeyFor (query : String) (preferredLanguages : List String) : String :=
  buildSmartSearchCacheKey (normalizeQuery query)
    (normalizeLanguageList preferredLanguages)

/-- A song whose trimmed id and trimmed `name ?? title` are non-empty
(what `normalizePrimarySong` guarantees). -/
def hasNonemptyIdName (s : Song) : Prop :=
  trimStr (s.id.getD "") ≠ "" ∧
  trimStr ((s.name.orElse fun _ => s.title).getD "") ≠ ""

/-- The per-seed candidate contribution of `generateRecommendations`:
`searchSongsOnly(q).catch(() => empty)` — a failed seed contributes `[]`. -/
def seedCandidateSongs (env : SongsOnlyEnv) (q : String) : List Song :=
  match searchSongsOnly env q with
  | .ok songs => songs
  | .error _ => []

end SaavnApi

/-! Concrete sample data used by the closed witness and counterexample
statements below. -/

/-- A well-formed English song. -/
def exSong : Song := { id := some "s1", name := some "Believer", language := some "english" }

/-- A single-entry smart-search cache holding `exSong` under the key for
query `"q"` with no preferred languages, written at time 0. -/
def exCache : SaavnApi.SmartCache :=
  [(SaavnApi.smartSearchCacheKeyFor "q" [], ⟨0, 0, [exSong]⟩)]

/-- An upstream environment whose primary search always returns `[exSong]`
and whose fallback returns a non-array payload. -/
def exEnv : SaavnApi.SongsOnlyEnv :=
  { primary := fun _ _ => .ok [exSong]
    fallbackPayload := fun _ => .ok none }

/-- A current-song context: hindi song "abc" on album `al1` by artist
`ax`. -/
def exNextContext : Recommendations.NextTrackContext :=
  { songId := "s1", language := "hindi", artistIds := ["ax"],
    artistNames := ["artist x"], albumId := "al1", albumName := "album one",
    title := "abc" }

/-- A candidate passing every next-track filter although its canonical
title "abcd" strictly contains the current song's canonical title "abc"
(which is shorter than 6 characters). -/
def exNextCandidate : Song :=
  { id := some "s9", name := some "abcd", language := some "hindi",
    album := .obj "al2" "album two",
    artists := [⟨"ay", "artist y"⟩] }

/-- A song named "abc", scored against the punctuation-only query `"!!"`
for the C3 counterexample. -/
def exPlainSong : Song := { name := some "abc" }

/-! ## Helper lemmas -/

theorem contains_iff_mem (l : List String) (a : String) : l.contains a = true ↔ a ∈ l := by
  simp [List.contains]

theorem contains_eq_false_iff (l : List String) (a : String) :
    l.contains a = false ↔ a ∉ l := by
  constructor
  · intro h hm
    have := (contains_iff_mem l a).mpr hm
    rw [h] at this
    exact Bool.noConfusion this
  · intro h
    cases hc : l.contains a with
    | false => rfl
    | true => exact absurd ((contains_iff_mem l a).mp hc) h

namespace SaavnApi

theorem find?_key_map_replace (m : RankedMap) (k : String) (v : RankedEntry) :
    ((m.map (fun p => if p.1 = k then (k, v) else p)).find? (fun p => p.1 = k)) =
      if (m.find? (fun p => p.1 = k)).isSome then some (k, v) else none := by
  induction m with
  | nil => simp
  | cons p rest ih =>
    by_cases h : p.1 = k
    · rw [List.map_cons, if_pos h, List.find?_cons_of_pos _ (by simp),
        List.find?_cons_of_pos _ (by simp [h])]
      simp
    · rw [List.map_cons, if_neg h, List.find?_cons_of_neg _ (by simp [h]),
        List.find?_cons_of_neg _ (by simp [h])]
      exact ih

theorem lookupRanked_set_self (m : RankedMap) (k : String) (v : RankedEntry) :
    lookupRanked (setRanked m k v) k = some v := by
  unfold lookupRanked setRanked
  by_cases h : (m.find? (fun p => p.1 = k)).isSome
  · rw [if_pos h, find?_key_map_replace, if_pos h]
    rfl
  · rw [if_neg h, List.find?_append]
    have hnone : m.find? (fun p => p.1 = k) = none := by
      cases hf : m.find? (fun p => p.1 = k) with
      | none => rfl
      | some q => rw [hf] at h; simp at h
    rw [hnone]
    simp

theorem setRanked_mem (m : RankedMap) (k : String) (v : RankedEntry) :
    ∀ q ∈ setRanked m k v, q = (k, v) ∨ q ∈ m := by
  intro q hq
  unfold setRanked at hq
  by_cases h : (m.find? (fun p => p.1 = k)).isSome
  · rw [if_pos h] at hq
    rcases List.mem_map.mp hq with ⟨p, hp, hpe⟩
    by_cases hk : p.1 = k
    · left; rw [if_pos hk] at hpe; exact hpe.symm
    · right; rw [if_neg hk] at hpe; exact hpe ▸ hp
  · rw [if_neg h] at hq
    rcases List.mem_append.mp hq with hq | hq
    · right; exact hq
    · left; simpa using hq

theorem setRanked_keys (m : RankedMap) (k : String) (v : RankedEntry) :
    (setRanked m k v).map (·.1) = m.map (·.1) ∨
      ((setRanked m k v).map (·.1) = m.map (·.1) ++ [k] ∧
        m.find? (fun p => p.1 = k) = none) := by
  unfold setRanked
  by_cases h : (m.find? (fun p => p.1 = k)).isSome
  · left
    rw [if_pos h, List.map_map]
    refine List.map_congr_left ?_
    intro p _
    by_cases hk : p.1 = k
    · simp [hk]
    · simp [hk]
  · right
    have hnone : m.find? (fun p => p.1 = k) = none := by
      cases hf : m.find? (fun p => p.1 = k) with
      | none => rfl
      | some q => rw [hf] at h; simp at h
    rw [if_neg h]
    simp [hnone]

theorem find?_eq_none_key (m : RankedMap) (k : String)
    (h : m.find? (fun p => p.1 = k) = none) : k ∉ m.map (·.1) := by
  intro hk
  rcases List.mem_map.mp hk with ⟨p, hp, hpe⟩
  have := List.find?_eq_none.mp h p hp
  simp [hpe] at this

theorem setRanked_nodup (m : RankedMap) (k : String) (v : RankedEntry)
    (h : (m.map (·.1)).Nodup) : ((setRanked m k v).map (·.1)).Nodup := by
  rcases setRanked_keys m k v with hk | ⟨hk, hnone⟩
  · rw [hk]; exact h
  · rw [hk]
    refine List.Nodup.append h (List.nodup_singleton k) ?_
    intro a ha hb
    have : a = k := by simpa using hb
    exact find?_eq_none_key m k hnone (this ▸ ha)

theorem upsertRanked_mem (m : RankedMap) (k : String) (c : RankedEntry) :
    ∀ q ∈ upsertRanked m k c, q = (k, c) ∨ q ∈ m := by
  intro q hq
  unfold upsertRanked at hq
  split at hq
  · exact setRanked_mem m k c q hq
  · split at hq
    · exact setRanked_mem m k c q hq
    · exact Or.inr hq

theorem upsertRanked_nodup (m : RankedMap) (k : String) (c : RankedEntry)
    (h : (m.map (·.1)).Nodup) : ((upsertRanked m k c).map (·.1)).Nodup := by
  unfold upsertRanked
  split
  · exact setRanked_nodup m k c h
  · split
    · exact setRanked_nodup m k c h
    · exact h

theorem rankedLE_iff_compare (a b : RankedEntry) :
    rankedLE a b ↔ compareRankedEntries a b ≤ 0 := by
  unfold rankedLE compareRankedEntries
  by_cases h : a.matchTier = b.matchTier
  · simp [h]
  · simp only [if_pos (by exact fun he => h he)]
    constructor
    · rintro (hlt | ⟨he, _⟩)
      · omega
      · exact absurd he h
    · intro hle
      left
      omega

end SaavnApi

theorem foldl_preserves {α β : Type} (f : β → α → β) (P : β → Prop)
    (hf : ∀ b a, P b → P (f b a)) : ∀ (l : List α) (b : β), P b → P (List.foldl f b l) := by
  intro l
  induction l with
  | nil => intro b hb; exact hb
  | cons a rest ih => intro b hb; exact ih (f b a) (hf b a hb)

namespace SaavnApi

theorem upsertRanked_inv (m : RankedMap) (k : String) (c : RankedEntry)
    (h : RankedInv m) (hc : c.song.id.getD "" = k) : RankedInv (upsertRanked m k c) := by
  refine ⟨upsertRanked_nodup m k c h.1, ?_⟩
  intro q hq
  rcases upsertRanked_mem m k c q hq with hq | hq
  · rw [hq]; exact hc
  · exact h.2 q hq

theorem addRankedSongs_inv (m : RankedMap) (songs : List Song) (query : String)
    (vi : Nat) (sw : Int) (lh : Option String) (pls : List String)
    (h : RankedInv m) : RankedInv (addRankedSongs m songs query vi sw lh pls) := by
  unfold addRankedSongs
  refine foldl_preserves _ RankedInv ?_ songs m h
  intro b raw hb
  split
  · exact hb
  · split
    · exact hb
    · exact upsertRanked_inv _ _ _ hb rfl

theorem compare_nonneg_flip (a b : RankedEntry)
    (h : 0 ≤ compareRankedEntries a b) : compareRankedEntries b a ≤ 0 := by
  unfold compareRankedEntries at *
  by_cases he : a.matchTier = b.matchTier
  · simp [he] at *
    omega
  · rw [if_pos (by exact fun hx => he hx)] at h
    rw [if_pos (by exact fun hx => he hx.symm)]
    omega

theorem rankedLE_refl (a : RankedEntry) : rankedLE a a := Or.inr ⟨rfl, le_refl _⟩

theorem upsertRanked_keeps_better (m : RankedMap) (k : String) (c e : RankedEntry)
    (h : lookupRanked m k = some e) :
    lookupRanked (upsertRanked m k c) k =
      some (if compareRankedEntries c e < 0 then c else e) ∧
    rankedLE (if compareRankedEntries c e < 0 then c else e) c ∧
    rankedLE (if compareRankedEntries c e < 0 then c else e) e := by
  unfold upsertRanked
  split
  · rename_i heq
    rw [h] at heq
    exact Option.noConfusion heq
  · rename_i existing heq
    rw [h] at heq
    have hee : e = existing := Option.some.inj heq
    subst hee
    by_cases hc : compareRankedEntries c e < 0
    · rw [if_pos hc, if_pos hc]
      refine ⟨lookupRanked_set_self m k c, rankedLE_refl c, ?_⟩
      exact (rankedLE_iff_compare c e).mpr (le_of_lt hc)
    · rw [if_neg hc, if_neg hc]
      refine ⟨h, ?_, rankedLE_refl e⟩
      exact (rankedLE_iff_compare e c).mpr
        (compare_nonneg_flip c e (by omega))

theorem buildRankedOutput_ids_nodup (m : RankedMap) (h : RankedInv m) :
    ((buildRankedOutput m).map (fun s => s.id.getD "")).Nodup := by
  have hvals : ((m.map (·.2)).map (fun e => e.song.id.getD "")) = m.map (·.1) := by
    rw [List.map_map]
    exact List.map_congr_left (fun p hp => h.2 p hp)
  have hperm : (((m.map (·.2)).insertionSort rankedLE).map
      (fun e => e.song.id.getD "")).Perm (m.map (·.1)) := by
    rw [← hvals]
    exact (List.perm_insertionSort rankedLE (m.map (·.2))).map _
  have hnodupSorted : (((m.map (·.2)).insertionSort rankedLE).map
      (fun e => e.song.id.getD "")).Nodup :=
    hperm.nodup_iff.mpr h.1
  unfold buildRankedOutput buildRankedOutputEntries
  rw [List.map_map]
  have heq : (((m.map (·.2)).insertionSort rankedLE).take MAX_SMART_RESULTS).map
      ((fun s => s.id.getD "") ∘ (·.song)) =
      ((((m.map (·.2)).insertionSort rankedLE)).map
        (fun e => e.song.id.getD "")).take MAX_SMART_RESULTS := by
    rw [List.map_take]
    rfl
  rw [heq]
  exact hnodupSorted.sublist (List.take_sublist _ _)

end SaavnApi

namespace Recommendations

/-- The dedup key of the recommendation-side `mergeUniqueSongs`. -/
def mergeKey (s : Song) : String := trimStr (s.id.getD "")

/-- The invariant of the merge accumulator: output ids are distinct and
each is registered in the seen set. -/
def MergeInv (acc : List Song × List String) : Prop :=
  ((acc.1.map mergeKey).Nodup) ∧ ∀ s ∈ acc.1, mergeKey s ∈ acc.2

theorem mergeStep_inv (acc : List Song × List String) (song : Song)
    (h : MergeInv acc) :
    MergeInv (if mergeKey song = "" then acc
      else if acc.2.contains (mergeKey song) then acc
      else (acc.1 ++ [song], acc.2 ++ [mergeKey song])) := by
  by_cases h1 : mergeKey song = ""
  · rw [if_pos h1]; exact h
  · rw [if_neg h1]
    by_cases h2 : acc.2.contains (mergeKey song)
    · rw [if_pos h2]; exact h
    · rw [if_neg h2]
      have hnot : mergeKey song ∉ acc.2 :=
        (contains_eq_false_iff acc.2 (mergeKey song)).mp (by
          cases hc : acc.2.contains (mergeKey song) with
          | false => rfl
          | true => exact absurd hc h2)
      constructor
      · rw [List.map_append]
        refine List.Nodup.append h.1 (List.nodup_singleton _) ?_
        intro a ha hb
        have hak : a = mergeKey song := by simpa using hb
        rcases List.mem_map.mp ha with ⟨s, hs, hsk⟩
        exact hnot (hak ▸ hsk ▸ h.2 s hs)
      · intro s hs
        rcases List.mem_append.mp hs with hs | hs
        · exact List.mem_append_left _ (h.2 s hs)
        · have : s = song := by simpa using hs
          rw [this]
          exact List.mem_append_right _ (by simp)

theorem mergeUniqueSongs_nodup (songLists : List (List Song)) :
    ((mergeUniqueSongs songLists).map mergeKey).Nodup := by
  unfold mergeUniqueSongs
  have h := foldl_preserves
    (fun (acc : List Song × List String) list =>
      list.foldl
        (fun (acc : List Song × List String) song =>
          let id := trimStr (song.id.getD "")
          if id = "" then acc
          else if acc.2.contains id then acc
          else (acc.1 ++ [song], acc.2 ++ [id]))
        acc)
    MergeInv ?_ songLists ([], []) ⟨List.nodup_nil, by intro s hs; exact absurd hs (by simp)⟩
  · exact h.1
  · intro acc list hacc
    refine foldl_preserves _ MergeInv ?_ list acc hacc
    intro b song hb
    exact mergeStep_inv b song hb

end Recommendations

/-! ## C2: ranked output is bounded and tier-then-score sorted -/

/-- C2.  The list `buildRankedOutput` returns (the value `searchSongsSmart`
computes when it does the work itself) has length at most
`MAX_SMART_RESULTS` (40); its entries are sorted by ascending `matchTier`
with descending `score` inside a tier; in particular a strictly smaller
tier always comes first, regardless of score. -/
theorem buildRankedOutput_bounded_sorted (ranked : SaavnApi.RankedMap) :
    (SaavnApi.buildRankedOutput ranked).length ≤ MAX_SMART_RESULTS ∧
    List.Pairwise SaavnApi.rankedLE (SaavnApi.buildRankedOutputEntries ranked) ∧
    List.Pairwise (fun a b => a.matchTier ≤ b.matchTier)
      (SaavnApi.buildRankedOutputEntries ranked) := by
  have hsorted : List.Pairwise SaavnApi.rankedLE
      (SaavnApi.buildRankedOutputEntries ranked) := by
    unfold SaavnApi.buildRankedOutputEntries
    exact (List.sorted_insertionSort SaavnApi.rankedLE _).sublist
      (List.take_sublist _ _)
  refine ⟨?_, hsorted, ?_⟩
  · unfold SaavnApi.buildRankedOutput SaavnApi.buildRankedOutputEntries
    rw [List.length_map]
    exact List.length_take_le _ _
  · refine hsorted.imp ?_
    intro a b hab
    rcases hab with h | ⟨h, _⟩
    · omega
    · omega

namespace SaavnApi

theorem setLocalIndex_mem (m : LocalIndex) (k : String) (v : LocalIndexEntry) :
    ∀ q ∈ setLocalIndex m k v, q = (k, v) ∨ q ∈ m := by
  intro q hq
  unfold setLocalIndex at hq
  by_cases h : (m.find? (fun p => p.1 = k)).isSome
  · rw [if_pos h] at hq
    rcases List.mem_map.mp hq with ⟨p, hp, hpe⟩
    by_cases hk : p.1 = k
    · left; rw [if_pos hk] at hpe; exact hpe.symm
    · right; rw [if_neg hk] at hpe; exact hpe ▸ hp
  · rw [if_neg h] at hq
    rcases List.mem_append.mp hq with hq | hq
    · right; exact hq
    · left; simpa using hq

theorem normalizePrimarySong_nonempty (raw s : Song)
    (h : normalizePrimarySong raw = some s) : hasNonemptyIdName s := by
  unfold normalizePrimarySong at h
  by_cases hc : trimStr (raw.id.getD "") = "" ∨
      trimStr ((raw.name.orElse fun _ => raw.title).getD "") = ""
  · rw [if_pos hc] at h
    exact Option.noConfusion h
  · rw [if_neg hc] at h
    have hrs : raw = s := Option.some.inj h
    subst hrs
    exact ⟨fun h1 => hc (Or.inl h1), fun h2 => hc (Or.inr h2)⟩

theorem addRankedSongs_nonempty (m : RankedMap) (songs : List Song)
    (query : String) (vi : Nat) (sw : Int) (lh : Option String) (pls : List String)
    (h : ∀ p ∈ m, hasNonemptyIdName p.2.song) :
    ∀ p ∈ addRankedSongs m songs query vi sw lh pls, hasNonemptyIdName p.2.song := by
  unfold addRankedSongs
  refine foldl_preserves _ (fun b => ∀ p ∈ b, hasNonemptyIdName p.2.song) ?_ songs m h
  intro b raw hb
  split
  · exact hb
  · rename_i song hnorm
    split
    · exact hb
    · intro p hp
      rcases upsertRanked_mem _ _ _ p hp with hpe | hpe
      · rw [hpe]
        exact normalizePrimarySong_nonempty raw song hnorm
      · exact hb p hpe

theorem upsertLocalSongIndex_nonempty (idx : LocalIndex) (song : Song) (now : Nat)
    (h : ∀ p ∈ idx, hasNonemptyIdName p.2.song) :
    ∀ p ∈ upsertLocalSongIndex idx song now, hasNonemptyIdName p.2.song := by
  unfold upsertLocalSongIndex
  split
  · exact h
  · rename_i normalizedSong hnorm
    show ∀ p ∈ (if (extractSongSearchFields normalizedSong).name = "" then idx
        else setLocalIndex idx (normalizedSong.id.getD "")
          { song := normalizedSong, fields := extractSongSearchFields normalizedSong,
            updatedAt := now, lastAccessAt := now }),
      hasNonemptyIdName p.2.song
    split
    · exact h
    · intro p hp
      rcases setLocalIndex_mem _ _ _ p hp with hpe | hpe
      · rw [hpe]
        exact normalizePrimarySong_nonempty song normalizedSong hnorm
      · exact h p hpe

theorem searchSongsOnlyFallback_nonempty (payload : Option (List (Option FallbackRaw))) :
    ∀ s ∈ searchSongsOnlyFallback payload, s.id.getD "" ≠ "" ∧ s.name.getD "" ≠ "" := by
  intro s hs
  unfold searchSongsOnlyFallback at hs
  cases payload with
  | none => exact absurd hs (by simp)
  | some items =>
    have hf := List.of_mem_filter hs
    constructor
    · intro h1
      rw [h1] at hf
      simp at hf
    · intro h2
      rw [h2] at hf
      simp at hf

end SaavnApi

/-! ## Claim theorems C7 and C9 -/

/-- C7.  Dedup invariants: (1) `addRankedSongs` preserves the ranked-map
invariant (distinct keys, each entry keyed by its song's id); (2) under
that invariant the smart-search output `buildRankedOutput` has pairwise
distinct song ids; (3) the recommendation generator's `mergeUniqueSongs`
output has pairwise distinct (trimmed) song ids; (4) on a duplicate id the
upsert keeps the entry that is better or equal in the `(matchTier, score)`
order (strictly better candidates replace, ties keep the existing entry). -/
theorem dedup_invariants :
    (∀ (m : SaavnApi.RankedMap) (songs : List Song) (query : String) (vi : Nat)
      (sw : Int) (lh : Option String) (pls : List String),
      SaavnApi.RankedInv m →
        SaavnApi.RankedInv (SaavnApi.addRankedSongs m songs query vi sw lh pls)) ∧
    (∀ m : SaavnApi.RankedMap, SaavnApi.RankedInv m →
      ((SaavnApi.buildRankedOutput m).map (fun s => s.id.getD "")).Nodup) ∧
    (∀ songLists : List (List Song),
      ((Recommendations.mergeUniqueSongs songLists).map
        (fun s => trimStr (s.id.getD ""))).Nodup) ∧
    (∀ (m : SaavnApi.RankedMap) (k : String) (c e : SaavnApi.RankedEntry),
      SaavnApi.lookupRanked m k = some e →
        SaavnApi.lookupRanked (SaavnApi.upsertRanked m k c) k =
          some (if SaavnApi.compareRankedEntries c e < 0 then c else e) ∧
        SaavnApi.rankedLE (if SaavnApi.compareRankedEntries c e < 0 then c else e) c ∧
        SaavnApi.rankedLE (if SaavnApi.compareRankedEntries c e < 0 then c else e) e) := by
  refine ⟨?_, ?_, ?_, ?_⟩
  · intro m songs query vi sw lh pls h
    exact SaavnApi.addRankedSongs_inv m songs query vi sw lh pls h
  · intro m h
    exact SaavnApi.buildRankedOutput_ids_nodup m h
  · intro songLists
    exact Recommendations.mergeUniqueSongs_nodup songLists
  · intro m k c e h
    exact SaavnApi.upsertRanked_keeps_better m k c e h

/-- C9.  Non-empty identity after normalization: a primary record accepted
by `normalizePrimarySong` has a non-empty trimmed id and name; every entry
the ranked map or the local song index ever receives satisfies the same
property (records rejected at normalization are never inserted); and every
record `searchSongsOnlyFallback` yields has a non-empty id and name. -/
theorem normalization_nonempty_identity :
    (∀ raw s : Song, SaavnApi.normalizePrimarySong raw = some s →
      SaavnApi.hasNonemptyIdName s) ∧
    (∀ (m : SaavnApi.RankedMap) (songs : List Song) (query : String) (vi : Nat)
      (sw : Int) (lh : Option String) (pls : List String),
      (∀ p ∈ m, SaavnApi.hasNonemptyIdName p.2.song) →
      ∀ p ∈ SaavnApi.addRankedSongs m songs query vi sw lh pls,
        SaavnApi.hasNonemptyIdName p.2.song) ∧
    (∀ (idx : SaavnApi.LocalIndex) (song : Song) (now : Nat),
      (∀ p ∈ idx, SaavnApi.hasNonemptyIdName p.2.song) →
      ∀ p ∈ SaavnApi.upsertLocalSongIndex idx song now,
        SaavnApi.hasNonemptyIdName p.2.song) ∧
    (∀ payload, ∀ s ∈ SaavnApi.searchSongsOnlyFallback payload,
      s.id.getD "" ≠ "" ∧ s.name.getD "" ≠ "") := by
  refine ⟨?_, ?_, ?_, ?_⟩
  · exact SaavnApi.normalizePrimarySong_nonempty
  · exact SaavnApi.addRankedSongs_nonempty
  · exact SaavnApi.upsertLocalSongIndex_nonempty
  · exact SaavnApi.searchSongsOnlyFallback_nonempty

namespace SaavnApi

theorem sfExec_cons (s : List String) (e : SFEvent) (rest : List SFEvent) :
    sfExec s (e :: rest) =
      match sfStep s e with
      | none => none
      | some s1 => sfExec s1 rest := rfl

theorem sfExec_append (t1 t2 : List SFEvent) :
    ∀ s : List String, sfExec s (t1 ++ t2) =
      (sfExec s t1).bind fun s1 => sfExec s1 t2 := by
  induction t1 with
  | nil => intro s; rfl
  | cons e rest ih =>
    intro s
    rw [List.cons_append, sfExec_cons, sfExec_cons]
    cases hstep : sfStep s e with
    | none => rfl
    | some s1 => exact ih s1

theorem sfStep_nodup (s : List String) (e : SFEvent) (s' : List String)
    (hn : s.Nodup) (h : sfStep s e = some s') : s'.Nodup := by
  cases e with
  | startRefresh k =>
    simp only [sfStep] at h
    by_cases hk : k ∈ s
    · rw [if_pos hk] at h; exact Option.noConfusion h
    · rw [if_neg hk] at h
      have := Option.some.inj h
      rw [← this]
      exact List.Nodup.cons hk hn
  | joinRefresh k =>
    simp only [sfStep] at h
    by_cases hk : k ∈ s
    · rw [if_pos hk] at h
      have := Option.some.inj h
      rw [← this]
      exact hn
    · rw [if_neg hk] at h; exact Option.noConfusion h
  | complete k ok =>
    simp only [sfStep] at h
    by_cases hk : k ∈ s
    · rw [if_pos hk] at h
      have := Option.some.inj h
      rw [← this]
      exact hn.erase k
    · rw [if_neg hk] at h; exact Option.noConfusion h

theorem sfExec_nodup (t : List SFEvent) :
    ∀ s s' : List String, s.Nodup → sfExec s t = some s' → s'.Nodup := by
  induction t with
  | nil =>
    intro s s' hn h
    have : s = s' := Option.some.inj h
    rw [← this]; exact hn
  | cons e rest ih =>
    intro s s' hn h
    rw [sfExec_cons] at h
    cases hstep : sfStep s e with
    | none => rw [hstep] at h; exact Option.noConfusion h
    | some s1 =>
      rw [hstep] at h
      exact ih s1 s' (sfStep_nodup s e s1 hn hstep) h

theorem sfStep_keeps_mem (s : List String) (e : SFEvent) (s' : List String)
    (k : String) (hk : k ∈ s) (h : sfStep s e = some s')
    (hne : ∀ ok, e ≠ .complete k ok) : k ∈ s' := by
  cases e with
  | startRefresh k' =>
    simp only [sfStep] at h
    by_cases hk' : k' ∈ s
    · rw [if_pos hk'] at h; exact Option.noConfusion h
    · rw [if_neg hk'] at h
      have := Option.some.inj h
      rw [← this]
      exact List.mem_cons_of_mem k' hk
  | joinRefresh k' =>
    simp only [sfStep] at h
    by_cases hk' : k' ∈ s
    · rw [if_pos hk'] at h
      have := Option.some.inj h
      rw [← this]; exact hk
    · rw [if_neg hk'] at h; exact Option.noConfusion h
  | complete k' ok =>
    simp only [sfStep] at h
    by_cases hk' : k' ∈ s
    · rw [if_pos hk'] at h
      have := Option.some.inj h
      rw [← this]
      have hkk : k ≠ k' := by
        intro he
        exact hne ok (by rw [he])
      exact (List.mem_erase_of_ne hkk).mpr hk
    · rw [if_neg hk'] at h; exact Option.noConfusion h

theorem sfExec_mem_complete (t : List SFEvent) :
    ∀ (s s' : List String) (k : String), k ∈ s → sfExec s t = some s' → k ∉ s' →
      ∃ ok, SFEvent.complete k ok ∈ t := by
  induction t with
  | nil =>
    intro s s' k hk h hk'
    have : s = s' := Option.some.inj h
    exact absurd (this ▸ hk) hk'
  | cons e rest ih =>
    intro s s' k hk h hk'
    rw [sfExec_cons] at h
    cases hstep : sfStep s e with
    | none => rw [hstep] at h; exact Option.noConfusion h
    | some s1 =>
      rw [hstep] at h
      by_cases hce : ∃ ok, e = SFEvent.complete k ok
      · rcases hce with ⟨ok, rfl⟩
        exact ⟨ok, List.mem_cons_self _ _⟩
      · have hne : ∀ ok, e ≠ .complete k ok := by
          intro ok he
          exact hce ⟨ok, he⟩
        have hk1 : k ∈ s1 := sfStep_keeps_mem s e s1 k hk hstep hne
        rcases ih s1 s' k hk1 h hk' with ⟨ok, hok⟩
        exact ⟨ok, List.mem_cons_of_mem e hok⟩

theorem sfStep_start_not_inflight (s s' : List String) (k : String)
    (h : sfStep s (.startRefresh k) = some s') : k ∉ s := by
  intro hk
  simp only [sfStep] at h
  rw [if_pos hk] at h
  exact Option.noConfusion h

end SaavnApi

/-! ## Claim theorem C4 -/

/-- C4.  Single-flight: along any valid execution of the in-flight
protocol (refresh start only when no computation for the key is in flight,
join reuses the stored promise, completion — success or failure —
removes the marker), two starts for the same key are always separated by a
completion of that key; the in-flight set stays duplicate-free; and a
completion step removes the key from the in-flight set. -/
theorem singleFlight_per_key (t1 t2 t3 : List SaavnApi.SFEvent) (k : String)
    (s : List String)
    (h : SaavnApi.sfExec []
      (t1 ++ SaavnApi.SFEvent.startRefresh k ::
        (t2 ++ SaavnApi.SFEvent.startRefresh k :: t3)) = some s) :
    (∃ ok, SaavnApi.SFEvent.complete k ok ∈ t2) ∧
    s.Nodup ∧
    (∀ (inFlight s' : List String) (k' : String) (ok : Bool),
      inFlight.Nodup → SaavnApi.sfStep inFlight (.complete k' ok) = some s' →
        k' ∉ s') := by
  rw [SaavnApi.sfExec_append] at h
  cases h0 : SaavnApi.sfExec [] t1 with
  | none => rw [h0] at h; exact Option.noConfusion h
  | some s0 =>
    rw [h0] at h
    rw [Option.some_bind] at h
    have hnodup0 : s0.Nodup := SaavnApi.sfExec_nodup t1 [] s0 List.nodup_nil h0
    show _ ∧ _ ∧ _
    rw [SaavnApi.sfExec_cons] at h
    cases hstep : SaavnApi.sfStep s0 (.startRefresh k) with
    | none => rw [hstep] at h; exact Option.noConfusion h
    | some s1 =>
      rw [hstep] at h
      have hk1 : k ∈ s1 := by
        have hkn : k ∉ s0 := SaavnApi.sfStep_start_not_inflight s0 s1 k hstep
        simp only [SaavnApi.sfStep] at hstep
        rw [if_neg hkn] at hstep
        have := Option.some.inj hstep
        rw [← this]
        exact List.mem_cons_self k s0
      change SaavnApi.sfExec s1 (t2 ++ SaavnApi.SFEvent.startRefresh k :: t3) =
        some s at h
      rw [SaavnApi.sfExec_append] at h
      cases h2 : SaavnApi.sfExec s1 t2 with
      | none => rw [h2] at h; exact Option.noConfusion h
      | some s2 =>
        rw [h2] at h
        rw [Option.some_bind] at h
        rw [SaavnApi.sfExec_cons] at h
        cases hstep2 : SaavnApi.sfStep s2 (.startRefresh k) with
        | none => rw [hstep2] at h; exact Option.noConfusion h
        | some s3 =>
          rw [hstep2] at h
          change SaavnApi.sfExec s3 t3 = some s at h
          have hk2 : k ∉ s2 := SaavnApi.sfStep_start_not_inflight s2 s3 k hstep2
          refine ⟨SaavnApi.sfExec_mem_complete t2 s1 s2 k hk1 h2 hk2, ?_, ?_⟩
          · have hn1 : s1.Nodup := SaavnApi.sfStep_nodup s0 _ s1 hnodup0 hstep
            have hn2 : s2.Nodup := SaavnApi.sfExec_nodup t2 s1 s2 hn1 h2
            have hn3 : s3.Nodup := SaavnApi.sfStep_nodup s2 _ s3 hn2 hstep2
            exact SaavnApi.sfExec_nodup t3 s3 s hn3 h
          · intro inFlight s' k' ok hn hs
            simp only [SaavnApi.sfStep] at hs
            by_cases hk' : k' ∈ inFlight
            · rw [if_pos hk'] at hs
              have := Option.some.inj hs
              rw [← this]
              exact hn.not_mem_erase
            · rw [if_neg hk'] at hs
              exact Option.noConfusion hs

/-- Witness for C4 at the concrete trace
`[start "a", complete "a" (failure), start "a"]`: the segment between the
two starts contains the completion. -/
theorem singleFlight_per_key_witness :
    ∃ ok, SaavnApi.SFEvent.complete "a" ok ∈ [SaavnApi.SFEvent.complete "a" false] :=
  (singleFlight_per_key [] [SaavnApi.SFEvent.complete "a" false] [] "a" ["a"]
    (by decide)).1

namespace SaavnApi

theorem find?_key_map_replace_cache (m : SmartCache) (k : String) (v : CacheEntry) :
    ((m.map (fun p => if p.1 = k then (k, v) else p)).find? (fun p => p.1 = k)) =
      if (m.find? (fun p => p.1 = k)).isSome then some (k, v) else none := by
  induction m with
  | nil => simp
  | cons p rest ih =>
    by_cases h : p.1 = k
    · rw [List.map_cons, if_pos h, List.find?_cons_of_pos _ (by simp),
        List.find?_cons_of_pos _ (by simp [h])]
      simp
    · rw [List.map_cons, if_neg h, List.find?_cons_of_neg _ (by simp [h]),
        List.find?_cons_of_neg _ (by simp [h])]
      exact ih

theorem lookupCache_set_self (m : SmartCache) (k : String) (v : CacheEntry) :
    lookupCache (setCache m k v) k = some v := by
  unfold lookupCache setCache
  by_cases h : (m.find? (fun p => p.1 = k)).isSome
  · rw [if_pos h, find?_key_map_replace_cache, if_pos h]
    rfl
  · rw [if_neg h, List.find?_append]
    have hnone : m.find? (fun p => p.1 = k) = none := by
      cases hf : m.find? (fun p => p.1 = k) with
      | none => rfl
      | some q => rw [hf] at h; simp at h
    rw [hnone]
    simp

theorem lookupCache_erase_self (m : SmartCache) (k : String) :
    lookupCache (eraseCache m k) k = none := by
  unfold lookupCache eraseCache
  have : (m.filter (fun p => p.1 ≠ k)).find? (fun p => p.1 = k) = none := by
    rw [List.find?_eq_none]
    intro p hp
    have := List.of_mem_filter hp
    simpa using this
  rw [this]
  rfl

end SaavnApi

/-! ## Claim theorems C5 -/

namespace SaavnApi

theorem getCachedSmartSearch_eq (cache : SmartCache) (key : String) (now : Nat)
    (e : CacheEntry) (hl : lookupCache cache key = some e) :
    getCachedSmartSearch cache key now =
      if now - e.updatedAt > SEARCH_CACHE_STALE_TTL_MS then (none, eraseCache cache key)
      else (some (e.data, decide (now - e.updatedAt ≤ SEARCH_CACHE_FRESH_TTL_MS)),
        setCache cache key { e with lastAccessAt := now }) := by
  unfold getCachedSmartSearch
  rw [hl]

end SaavnApi

/-- C5 (amended).  Failure semantics of a stale cache entry: with an entry
for the derived cache key whose age is within `STALE_TTL`, (i) a
`searchSongsSmart` call whose refresh computation fails leaves that entry
in place with its data and `updatedAt` unchanged (only `lastAccessAt` is
refreshed) in either `waitForFresh` mode; (ii) a call with
`waitForFresh = false` returns the previously cached data no matter how the
refresh computation turns out; (iii) a lookup removes the entry exactly
when its age exceeds `STALE_TTL`. -/
theorem staleCache_failure_semantics (query : String) (langs : List String)
    (cache : SaavnApi.SmartCache) (now : Nat) (e : SaavnApi.CacheEntry)
    (hq : normalizeQuery query ≠ "")
    (hl : SaavnApi.lookupCache cache (SaavnApi.smartSearchCacheKeyFor query langs) = some e)
    (hage : now - e.updatedAt ≤ SEARCH_CACHE_STALE_TTL_MS) :
    (∀ waitForFresh,
      SaavnApi.lookupCache
        ((SaavnApi.searchSongsSmart query waitForFresh langs cache now (.error ())).cache)
        (SaavnApi.smartSearchCacheKeyFor query langs) =
      some { e with lastAccessAt := now }) ∧
    (∀ compute,
      (SaavnApi.searchSongsSmart query false langs cache now compute).result =
        .ok e.data) ∧
    (∀ now', now' - e.updatedAt > SEARCH_CACHE_STALE_TTL_MS →
      SaavnApi.lookupCache
        ((SaavnApi.getCachedSmartSearch cache
          (SaavnApi.smartSearchCacheKeyFor query langs) now').2)
        (SaavnApi.smartSearchCacheKeyFor query langs) = none) := by
  have hkey : SaavnApi.buildSmartSearchCacheKey (normalizeQuery query)
      (SaavnApi.normalizeLanguageList langs) =
      SaavnApi.smartSearchCacheKeyFor query langs := rfl
  have hgot := SaavnApi.getCachedSmartSearch_eq cache
    (SaavnApi.smartSearchCacheKeyFor query langs) now e hl
  rw [if_neg (by omega)] at hgot
  refine ⟨?_, ?_, ?_⟩
  · intro waitForFresh
    unfold SaavnApi.searchSongsSmart
    rw [if_neg hq, hkey]
    simp only [hgot]
    by_cases hfresh : now - e.updatedAt ≤ SEARCH_CACHE_FRESH_TTL_MS
    · simp [hfresh, SaavnApi.lookupCache_set_self]
    · cases waitForFresh with
      | false => simp [hfresh, SaavnApi.lookupCache_set_self]
      | true => simp [hfresh, SaavnApi.lookupCache_set_self]
  · intro compute
    unfold SaavnApi.searchSongsSmart
    rw [if_neg hq, hkey]
    simp only [hgot]
    by_cases hfresh : now - e.updatedAt ≤ SEARCH_CACHE_FRESH_TTL_MS
    · simp [hfresh]
    · cases compute with
      | ok out => simp [hfresh]
      | error err => simp [hfresh]
  · intro now2 hnow2
    rw [SaavnApi.getCachedSmartSearch_eq cache
      (SaavnApi.smartSearchCacheKeyFor query langs) now2 e hl, if_pos hnow2]
    exact SaavnApi.lookupCache_erase_self cache _

/-- Witness for C5 at a concrete stale entry (3 minutes old, so past
FRESH_TTL but within STALE_TTL): the `waitForFresh = false` call still
returns the cached data when the refresh computation fails. -/
theorem staleCache_failure_semantics_witness :
    (SaavnApi.searchSongsSmart "q" false [] exCache 180000
      (Except.error ())).result = Except.ok [exSong] :=
  (staleCache_failure_semantics "q" [] exCache 180000 ⟨0, 0, [exSong]⟩
    (by decide) (by decide) (by decide)).2.1 (Except.error ())

/-- Counterexample to C5 as stated: the cache holds an entry aged 3
minutes — stale but within STALE_TTL — yet a `searchSongsSmart` call with
`waitForFresh = true` whose refresh computation fails propagates the
failure instead of returning the previously cached data. -/
theorem staleCache_claim_counterexample :
    SaavnApi.lookupCache exCache (SaavnApi.smartSearchCacheKeyFor "q" []) =
      some ⟨0, 0, [exSong]⟩ ∧
    180000 - 0 ≤ SEARCH_CACHE_STALE_TTL_MS ∧
    (SaavnApi.searchSongsSmart "q" true [] exCache 180000
      (Except.error ())).result = Except.error () ∧
    (SaavnApi.searchSongsSmart "q" true [] exCache 180000
      (Except.error ())).result ≠ Except.ok [exSong] := by
  refine ⟨by decide, by decide, by decide, by decide⟩

/-! ## Claim theorems C6 -/

/-- C6 (amended).  The general-mode recommendation generator collects its
candidates by running `searchSongsOnly` (not the smart-search engine) on
each seed query, gathering with `Promise.allSettled` over per-seed
`.catch` wrappers: every seed yields exactly one slot, a failing seed's
slot is the empty list, and the flattened candidate pool equals that of
the successful seeds alone — one failure never aborts the collection. -/
theorem recommendations_collect_songsOnly (env : SaavnApi.SongsOnlyEnv)
    (queries : List String) :
    (Recommendations.collectCandidateSongs env queries).length = queries.length ∧
    (Recommendations.collectCandidateSongs env queries =
      queries.map (SaavnApi.seedCandidateSongs env)) ∧
    (∀ q, (SaavnApi.searchSongsOnly env q).isOk = false →
      SaavnApi.seedCandidateSongs env q = []) ∧
    (Recommendations.collectCandidateSongs env queries).flatten =
      (Recommendations.collectCandidateSongs env
        (queries.filter (fun q => (SaavnApi.searchSongsOnly env q).isOk))).flatten := by
  refine ⟨?_, ?_, ?_, ?_⟩
  · unfold Recommendations.collectCandidateSongs
    exact List.length_map queries _
  · rfl
  · intro q hq
    unfold SaavnApi.seedCandidateSongs
    cases hr : SaavnApi.searchSongsOnly env q with
    | ok songs =>
      rw [hr] at hq
      exact absurd hq (by simp [Except.isOk, Except.toBool])
    | error err => rfl
  · induction queries with
    | nil => rfl
    | cons q rest ih =>
      unfold Recommendations.collectCandidateSongs at *
      cases hr : SaavnApi.searchSongsOnly env q with
      | ok songs =>
        have hok : (SaavnApi.searchSongsOnly env q).isOk = true := by
          rw [hr]; rfl
        rw [List.filter_cons_of_pos (by rw [hok])]
        simp only [List.map_cons, List.flatten_cons, hr]
        rw [ih]
      | error err =>
        have hok : (SaavnApi.searchSongsOnly env q).isOk = false := by
          rw [hr]; rfl
        rw [List.filter_cons_of_neg (by rw [hok]; simp)]
        simp only [List.map_cons, List.flatten_cons, hr]
        rw [ih]
        rfl

/-- Counterexample to C6 as stated: for the seed query `" "` (whitespace
only) the source's collection — via `searchSongsOnly` — returns the
primary provider's results, while a collection through the Smart Search
Engine (`searchSongsSmart`, which short-circuits on the empty normalized
query) would return nothing, whatever its upstream computation yields.
The two collections differ, so general mode does not run `smartSearch`
per seed. -/
theorem recommendations_collect_not_smart_counterexample :
    Recommendations.collectCandidateSongs exEnv [" "] = [[exSong]] ∧
    Recommendations.collectCandidateSongsViaSmart (fun _ => .ok [exSong]) [" "] = [[]] ∧
    Recommendations.collectCandidateSongs exEnv [" "] ≠
      Recommendations.collectCandidateSongsViaSmart (fun _ => .ok [exSong]) [" "] := by
  refine ⟨by decide, by decide, by decide⟩

/-! ## Claim theorems C3 -/

namespace SaavnApi

theorem minimumTermMatches_eq_of_pos (query : String)
    (h : (smartEffectiveTerms query).length ≠ 0) :
    minimumTermMatches query = max 1 ((smartEffectiveTerms query).length - 1) := by
  unfold minimumTermMatches
  rw [if_neg h]
  by_cases h1 : (smartEffectiveTerms query).length > 1
  · rw [if_pos h1]
  · rw [if_neg h1]
    omega

theorem hasTermCoverage_iff (f : SongFields) (query : String) :
    hasTermCoverage f query = true ↔
      ((smartEffectiveTerms query).length = 0 ∨
       totalTermMatches f query ≥ minimumTermMatches query) := by
  unfold hasTermCoverage
  exact decide_eq_true_iff

theorem hasCompactFuzzy_lev (f : SongFields) (query : String)
    (h : hasCompactFuzzy f query = true) :
    levenshteinDistance (normalizeCompact query).data f.compactName.data ≤
      resolveMaxEditDistance (normalizeCompact query).data.length := by
  unfold hasCompactFuzzy at h
  simp only [Bool.and_eq_true, decide_eq_true_eq] at h
  exact h.2

theorem fuzzy_le_total (f : SongFields) (query : String) :
    (termTally f query).2.2 ≤ totalTermMatches f query := by
  unfold totalTermMatches
  omega

theorem scoreSongMatch_some_inv (song : Song) (query : String) (vi : Nat)
    (sw : Int) (lh : Option String) (pls : List String) (mr : MatchResult)
    (h : scoreSongMatch song query vi sw lh pls = some mr) :
    ∃ bonus, matchTierOf (extractSongSearchFields song) query =
        some (mr.matchTier, bonus) ∧
      (mr.matchTier = 3 → (smartEffectiveTerms query).length ≥ 2 →
        hasTermCoverage (extractSongSearchFields song) query = true) := by
  simp only [scoreSongMatch] at h
  split at h
  · exact Option.noConfusion h
  · rename_i tier bonus heq
    split at h
    · exact Option.noConfusion h
    · rename_i hg1
      split at h
      · exact Option.noConfusion h
      · rename_i hg2
        have hmr : mr.matchTier = tier := by
          have := Option.some.inj h
          rw [← this]
        refine ⟨bonus, by rw [hmr]; exact heq, ?_⟩
        intro h3 hlen
        cases hc : hasTermCoverage (extractSongSearchFields song) query with
        | true => rfl
        | false => exact absurd ⟨hmr ▸ h3, hlen, hc⟩ hg1

theorem matchTierOf_fuzzy_inv (f : SongFields) (query : String) (b : Int)
    (h : matchTierOf f query = some (3, b)) :
    hasTermCoverage f query = true ∨ hasCompactFuzzy f query = true ∨
      (termTally f query).2.2 > 0 := by
  unfold matchTierOf at h
  by_cases h1 : exactTierCond f query = true
  · rw [if_pos h1] at h
    have := Option.some.inj h
    have h0 : (0 : Nat) = 3 := congrArg Prod.fst this
    exact absurd h0 (by decide)
  · rw [if_neg h1] at h
    by_cases h2 : startsTierCond f query = true
    · rw [if_pos h2] at h
      have := Option.some.inj h
      have h0 : (1 : Nat) = 3 := congrArg Prod.fst this
      exact absurd h0 (by decide)
    · rw [if_neg h2] at h
      by_cases h3 : containsTierCond f query = true
      · rw [if_pos h3] at h
        have := Option.some.inj h
        have h0 : (2 : Nat) = 3 := congrArg Prod.fst this
        exact absurd h0 (by decide)
      · rw [if_neg h3] at h
        by_cases h4 : (hasTermCoverage f query || hasCompactFuzzy f query ||
            decide ((termTally f query).2.2 > 0)) = true
        · simp only [Bool.or_eq_true, decide_eq_true_eq] at h4
          rcases h4 with (h4 | h4) | h4
          · exact Or.inl h4
          · exact Or.inr (Or.inl h4)
          · exact Or.inr (Or.inr h4)
        · rw [if_neg h4] at h
          exact Option.noConfusion h

end SaavnApi

/-- C3 (amended).  FUZZY-tier conditions of `scoreSongMatch`: (→) whenever
a result with the FUZZY tier is returned, either the query has no
effective terms at all, or minimum term coverage is met
(`matched ≥ max(1, effective − 1)`), or the compact edit distance is
within `maxDist(compact length) = 1 if < 6, 2 if 6–9, 3 if ≥ 10`;
(←) when the query has at least one effective term, neither coverage nor
the edit-distance bound holds, and no higher tier (exact / starts-with /
contains) applies, the song is rejected (`scoreSongMatch` returns
`none`). -/
theorem scoreSongMatch_fuzzy_conditions :
    (∀ (song : Song) (query : String) (vi : Nat) (sw : Int) (lh : Option String)
      (pls : List String) (mr : SaavnApi.MatchResult),
      SaavnApi.scoreSongMatch song query vi sw lh pls = some mr →
      mr.matchTier = 3 →
      ((SaavnApi.smartEffectiveTerms query).length = 0 ∨
       SaavnApi.totalTermMatches (SaavnApi.extractSongSearchFields song) query ≥
         max 1 ((SaavnApi.smartEffectiveTerms query).length - 1) ∨
       levenshteinDistance (normalizeCompact query).data
           (SaavnApi.extractSongSearchFields song).compactName.data ≤
         SaavnApi.resolveMaxEditDistance (normalizeCompact query).data.length)) ∧
    (∀ (song : Song) (query : String) (vi : Nat) (sw : Int) (lh : Option String)
      (pls : List String),
      (SaavnApi.smartEffectiveTerms query).length ≠ 0 →
      SaavnApi.totalTermMatches (SaavnApi.extractSongSearchFields song) query <
        max 1 ((SaavnApi.smartEffectiveTerms query).length - 1) →
      SaavnApi.resolveMaxEditDistance (normalizeCompact query).data.length <
        levenshteinDistance (normalizeCompact query).data
          (SaavnApi.extractSongSearchFields song).compactName.data →
      SaavnApi.exactTierCond (SaavnApi.extractSongSearchFields song) query = false →
      SaavnApi.startsTierCond (SaavnApi.extractSongSearchFields song) query = false →
      SaavnApi.containsTierCond (SaavnApi.extractSongSearchFields song) query = false →
      SaavnApi.scoreSongMatch song query vi sw lh pls = none) := by
  constructor
  · intro song query vi sw lh pls mr h ht
    obtain ⟨b, hmt, hguard⟩ := SaavnApi.scoreSongMatch_some_inv song query vi sw lh pls mr h
    rw [ht] at hmt
    have hcov_mid : SaavnApi.hasTermCoverage (SaavnApi.extractSongSearchFields song)
        query = true →
        (SaavnApi.smartEffectiveTerms query).length = 0 ∨
        SaavnApi.totalTermMatches (SaavnApi.extractSongSearchFields song) query ≥
          max 1 ((SaavnApi.smartEffectiveTerms query).length - 1) ∨
        levenshteinDistance (normalizeCompact query).data
            (SaavnApi.extractSongSearchFields song).compactName.data ≤
          SaavnApi.resolveMaxEditDistance (normalizeCompact query).data.length := by
      intro hcov
      rcases (SaavnApi.hasTermCoverage_iff _ _).mp hcov with h0 | hcv
      · exact Or.inl h0
      · by_cases hlen : (SaavnApi.smartEffectiveTerms query).length = 0
        · exact Or.inl hlen
        · rw [SaavnApi.minimumTermMatches_eq_of_pos query hlen] at hcv
          exact Or.inr (Or.inl hcv)
    rcases SaavnApi.matchTierOf_fuzzy_inv _ query b hmt with hcov | hcf | hfz
    · exact hcov_mid hcov
    · exact Or.inr (Or.inr (SaavnApi.hasCompactFuzzy_lev _ query hcf))
    · by_cases hlen : (SaavnApi.smartEffectiveTerms query).length = 0
      · exact Or.inl hlen
      · by_cases hlen2 : (SaavnApi.smartEffectiveTerms query).length ≥ 2
        · exact hcov_mid (hguard ht hlen2)
        · have h1 : (SaavnApi.smartEffectiveTerms query).length = 1 := by omega
          have htot := SaavnApi.fuzzy_le_total
            (SaavnApi.extractSongSearchFields song) query
          refine Or.inr (Or.inl ?_)
          rw [h1]
          omega
  · intro song query vi sw lh pls hlen hlt hlev hex hst hco
    have hcovF : SaavnApi.hasTermCoverage (SaavnApi.extractSongSearchFields song)
        query = false := by
      cases hc : SaavnApi.hasTermCoverage (SaavnApi.extractSongSearchFields song)
          query with
      | false => rfl
      | true =>
        rcases (SaavnApi.hasTermCoverage_iff _ _).mp hc with h0 | hcv
        · exact absurd h0 hlen
        · rw [SaavnApi.minimumTermMatches_eq_of_pos query hlen] at hcv
          omega
    have hcfF : SaavnApi.hasCompactFuzzy (SaavnApi.extractSongSearchFields song)
        query = false := by
      cases hc : SaavnApi.hasCompactFuzzy (SaavnApi.extractSongSearchFields song)
          query with
      | false => rfl
      | true =>
        have := SaavnApi.hasCompactFuzzy_lev (SaavnApi.extractSongSearchFields song)
          query hc
        omega
    simp only [SaavnApi.scoreSongMatch]
    have hmt2 : SaavnApi.matchTierOf (SaavnApi.extractSongSearchFields song) query =
        if (SaavnApi.termTally (SaavnApi.extractSongSearchFields song) query).2.2 > 0
        then some (3, 80) else none := by
      unfold SaavnApi.matchTierOf
      rw [if_neg (by rw [hex]; exact Bool.false_ne_true),
        if_neg (by rw [hst]; exact Bool.false_ne_true),
        if_neg (by rw [hco]; exact Bool.false_ne_true)]
      rw [hcovF, hcfF]
      by_cases hfz : (SaavnApi.termTally (SaavnApi.extractSongSearchFields song)
          query).2.2 > 0
      · rw [if_pos hfz]
        rw [if_pos (by simp [hfz])]
      · rw [if_neg hfz]
        rw [if_neg (by simp [hfz])]
    rw [hmt2]
    by_cases hfz : (SaavnApi.termTally (SaavnApi.extractSongSearchFields song)
        query).2.2 > 0
    · rw [if_pos hfz]
      have hlen2 : (SaavnApi.smartEffectiveTerms query).length ≥ 2 := by
        have htot := SaavnApi.fuzzy_le_total
          (SaavnApi.extractSongSearchFields song) query
        by_cases h2 : (SaavnApi.smartEffectiveTerms query).length ≥ 2
        · exact h2
        · have h1 : (SaavnApi.smartEffectiveTerms query).length = 1 := by omega
          rw [h1] at hlt
          omega
      simp [hcovF, hlen2]
    · rw [if_neg hfz]

/-- Counterexample to C3 as stated: against the punctuation-only query
`"!!"` (zero effective terms) and the song named "abc", no term is matched
(0 < max(1, 0−1) = 1) and the compact edit distance 3 exceeds
maxDist(0) = 1, yet `scoreSongMatch` assigns the FUZZY tier (score 85)
instead of rejecting — the code treats coverage as vacuously satisfied
when there are no effective terms. -/
theorem scoreSongMatch_zeroTerms_counterexample :
    SaavnApi.scoreSongMatch exPlainSong "!!" 0 15 none [] =
      some ⟨85, 3⟩ ∧
    SaavnApi.totalTermMatches (SaavnApi.extractSongSearchFields exPlainSong) "!!" <
      max 1 ((SaavnApi.smartEffectiveTerms "!!").length - 1) ∧
    SaavnApi.resolveMaxEditDistance (normalizeCompact "!!").data.length <
      levenshteinDistance (normalizeCompact "!!").data
        (SaavnApi.extractSongSearchFields exPlainSong).compactName.data := by
  refine ⟨by decide, by decide, by decide⟩

/-! ## Claim theorems C1 -/

namespace Recommendations

theorem validate_true_parts (context : NextTrackContext) (recent : List String)
    (song : Song) (h : validateNextTrackCandidate context recent song = true) :
    trimStr (song.id.getD "") ≠ "" ∧
    recent.contains (trimStr (song.id.getD "")) = false ∧
    (decide (context.language ≠ "") &&
      decide (normalizeText (song.language.getD "") ≠ context.language)) = false ∧
    isSameArtist song context = false ∧
    isSameAlbum song context = false ∧
    isDuplicateVibe song context = false := by
  unfold validateNextTrackCandidate at h
  simp only [Bool.and_eq_true, Bool.not_eq_true', decide_eq_true_eq] at h
  exact ⟨h.1.1.1.1.1, h.1.1.1.1.2, h.1.1.1.2, h.1.1.2, h.1.2, h.2⟩

theorem isSameArtist_false_disjoint (song : Song) (context : NextTrackContext)
    (h : isSameArtist song context = false) :
    (∀ aid ∈ extractArtistIds song, aid ∉ context.artistIds) ∧
    (∀ nm ∈ extractArtistNames song, normalizeText nm ∉ context.artistNames) := by
  unfold isSameArtist at h
  rw [Bool.or_eq_false_iff] at h
  constructor
  · intro aid haid hmem
    have h1 := List.any_eq_false.mp h.1 aid haid
    exact h1 ((contains_iff_mem _ _).mpr hmem)
  · intro nm hnm hmem
    have h2 := List.any_eq_false.mp h.2 (normalizeText nm)
      (List.mem_map.mpr ⟨nm, hnm, rfl⟩)
    exact h2 ((contains_iff_mem _ _).mpr hmem)

theorem isSameAlbum_false_parts (song : Song) (context : NextTrackContext)
    (h : isSameAlbum song context = false) :
    (context.albumId ≠ "" → songAlbumId song ≠ "" →
      songAlbumId song ≠ context.albumId) ∧
    (context.albumName ≠ "" → songAlbumName song ≠ "" →
      songAlbumName song ≠ context.albumName) := by
  unfold isSameAlbum at h
  rw [Bool.or_eq_false_iff] at h
  constructor
  · intro h1 h2 heq
    have := h.1
    simp only [Bool.and_eq_false_imp, Bool.and_eq_true, decide_eq_true_eq,
      decide_eq_false_iff_not] at this
    exact this ⟨h1, h2⟩ heq.symm
  · intro h1 h2 heq
    have := h.2
    simp only [Bool.and_eq_false_imp, Bool.and_eq_true, decide_eq_true_eq,
      decide_eq_false_iff_not] at this
    exact this ⟨h1, h2⟩ heq.symm

theorem isDuplicateVibe_false_parts (song : Song) (context : NextTrackContext)
    (h : isDuplicateVibe song context = false)
    (hcur : canonicalSongTitle context.title ≠ "")
    (hcand : candidateCanonicalTitle song ≠ "") :
    candidateCanonicalTitle song ≠ canonicalSongTitle context.title ∧
    ((canonicalSongTitle context.title).data.length ≥ 6 →
      strIncludes (candidateCanonicalTitle song) (canonicalSongTitle context.title) =
        false) := by
  unfold isDuplicateVibe at h
  rw [if_neg (by simp [hcur, hcand])] at h
  by_cases heq : canonicalSongTitle context.title = candidateCanonicalTitle song
  · rw [if_pos heq] at h
    exact Bool.noConfusion h
  · rw [if_neg heq] at h
    refine ⟨fun he => heq he.symm, ?_⟩
    intro hlen
    rw [Bool.and_eq_false_iff] at h
    rcases h with h | h
    · exact absurd hlen (by simpa using h)
    · exact h

end Recommendations

/-- C1 (amended).  Hard next-track filters: when the current-song context
has a known language, every song in the filtered candidate pool of
`generateNextSongRecommendations` (the reranker pass and the final
truncation only reorder and shorten this pool) has the context's
normalized language; its trimmed id is outside the recent-exclusion set
(last-40 plays ∪ last-40 skips ∪ current song id) — in particular it is
not the current song; its extracted artist-id set and normalized
artist-name set are disjoint from the context's; its album id (resp.
album name) differs from the context's whenever both sides of that
comparison are non-empty; and when both canonical titles are non-empty
they differ, with candidate titles containing the current canonical title
also excluded whenever the current canonical title is at least 6
characters long. -/
theorem nextTrack_hard_filters (seedResults : List (List Song))
    (context : Recommendations.NextTrackContext)
    (recentPlayIds recentSkipIds : List (Option String)) (song : Song)
    (hlang : context.language ≠ "")
    (hmem : song ∈ Recommendations.nextTrackCandidatePool seedResults context
      recentPlayIds recentSkipIds) :
    normalizeText (song.language.getD "") = context.language ∧
    trimStr (song.id.getD "") ∉
      Recommendations.buildRecentSongIds context recentPlayIds recentSkipIds ∧
    (context.songId ≠ "" → trimStr (song.id.getD "") ≠ context.songId) ∧
    (∀ aid ∈ Recommendations.extractArtistIds song, aid ∉ context.artistIds) ∧
    (∀ nm ∈ Recommendations.extractArtistNames song,
      normalizeText nm ∉ context.artistNames) ∧
    (context.albumId ≠ "" → Recommendations.songAlbumId song ≠ "" →
      Recommendations.songAlbumId song ≠ context.albumId) ∧
    (context.albumName ≠ "" → Recommendations.songAlbumName song ≠ "" →
      Recommendations.songAlbumName song ≠ context.albumName) ∧
    (Recommendations.canonicalSongTitle context.title ≠ "" →
      Recommendations.candidateCanonicalTitle song ≠ "" →
      Recommendations.candidateCanonicalTitle song ≠
        Recommendations.canonicalSongTitle context.title ∧
      ((Recommendations.canonicalSongTitle context.title).data.length ≥ 6 →
        strIncludes (Recommendations.candidateCanonicalTitle song)
          (Recommendations.canonicalSongTitle context.title) = false)) := by
  have hval : Recommendations.validateNextTrackCandidate context
      (Recommendations.buildRecentSongIds context recentPlayIds recentSkipIds)
      song = true := by
    unfold Recommendations.nextTrackCandidatePool at hmem
    exact List.of_mem_filter hmem
  obtain ⟨hid, hrec, hlangb, hart, halb, hvibe⟩ :=
    Recommendations.validate_true_parts _ _ _ hval
  have hrecNot : trimStr (song.id.getD "") ∉
      Recommendations.buildRecentSongIds context recentPlayIds recentSkipIds :=
    (contains_eq_false_iff _ _).mp hrec
  refine ⟨?_, hrecNot, ?_, (Recommendations.isSameArtist_false_disjoint song context hart).1,
    (Recommendations.isSameArtist_false_disjoint song context hart).2,
    (Recommendations.isSameAlbum_false_parts song context halb).1,
    (Recommendations.isSameAlbum_false_parts song context halb).2, ?_⟩
  · rw [Bool.and_eq_false_iff] at hlangb
    rcases hlangb with hl | hl
    · exact absurd hlang (by simpa using hl)
    · have : ¬ normalizeText (song.language.getD "") ≠ context.language := by
        simpa using hl
      exact not_not.mp this
  · intro hsid heq
    refine hrecNot ?_
    unfold Recommendations.buildRecentSongIds
    refine List.mem_append_right _ ?_
    rw [if_pos hsid, heq]
    exact List.mem_singleton_self _
  · intro hcur hcand
    exact Recommendations.isDuplicateVibe_false_parts song context hvibe hcur hcand

/-- Witness for C1 at a concrete context/candidate: the language filter
conclusion at the hindi candidate `exNextCandidate`. -/
theorem nextTrack_hard_filters_witness :
    normalizeText (exNextCandidate.language.getD "") = exNextContext.language :=
  (nextTrack_hard_filters [[exNextCandidate]] exNextContext [some "s2"] []
    exNextCandidate (by decide) (by decide)).1

/-- Counterexample to C1 as stated: `exNextCandidate` (title "abcd")
survives every next-track filter against `exNextContext` (title "abc"),
yet its canonical title strictly contains — is a superset of — the
current song's canonical title: the code only enforces the superset
exclusion when the current canonical title has at least 6 characters. -/
theorem nextTrack_superset_title_counterexample :
    exNextCandidate ∈ Recommendations.nextTrackCandidatePool [[exNextCandidate]]
      exNextContext [some "s2"] [] ∧
    Recommendations.canonicalSongTitle exNextContext.title ≠ "" ∧
    Recommendations.candidateCanonicalTitle exNextCandidate ≠
      Recommendations.canonicalSongTitle exNextContext.title ∧
    strIncludes (Recommendations.candidateCanonicalTitle exNextCandidate)
      (Recommendations.canonicalSongTitle exNextContext.title) = true := by
  refine ⟨by decide, by decide, by decide, by decide⟩

/-! ## Claim theorems C8 -/

namespace Personalization

theorem annotateSongs_length (feats : Nat → Song → RerankFeatureVals) (total : Nat) :
    ∀ (i : Nat) (l : List Song), (annotateSongs feats total i l).length = l.length := by
  intro i l
  induction l generalizing i with
  | nil => rfl
  | cons y rest ih =>
    unfold annotateSongs
    simp only [List.length_cons]
    rw [ih (i + 1)]

theorem annotateSongs_map_id (feats : Nat → Song → RerankFeatureVals) (total : Nat) :
    ∀ (i : Nat) (l : List Song),
      (annotateSongs feats total i l).map (·.id) = l.map (·.id) := by
  intro i l
  induction l generalizing i with
  | nil => rfl
  | cons y rest ih =>
    unfold annotateSongs
    simp only [List.map_cons]
    rw [ih (i + 1)]
    rfl

theorem annotateSongs_mem (feats : Nat → Song → RerankFeatureVals) (total : Nat) :
    ∀ (i : Nat) (l : List Song) (s : Song), s ∈ annotateSongs feats total i l →
      ∃ j y, l.get? j = some y ∧
        s = setRanking y (mkRanking (i + j) total (feats (i + j) y)) := by
  intro i l
  induction l generalizing i with
  | nil => intro s hs; exact absurd hs (by simp [annotateSongs])
  | cons y rest ih =>
    intro s hs
    unfold annotateSongs at hs
    rcases List.mem_cons.mp hs with hs | hs
    · exact ⟨0, y, rfl, by simpa using hs⟩
    · rcases ih (i + 1) s hs with ⟨j, y', hj, hy⟩
      refine ⟨j + 1, y', by simpa using hj, ?_⟩
      have harith : i + 1 + j = i + (j + 1) := by omega
      rw [hy, harith]

end Personalization

/-- C8.  `rerankSongsForUser` (with the floating-point feature extractors
abstracted as the `feats` oracle): pass-through for a falsy uid or empty
song list; otherwise the output has the input's length and the same
multiset of song ids (a permutation), is sorted in descending order of the
annotated (4-decimal-rounded) `finalScore`, and every output song is an
input song annotated with the `_ranking` record `mkRanking` builds from
its original index — all fields rounded to 4 decimals. -/
theorem rerank_permutation_sorted (uid : Option String) (songs : List Song)
    (feats : Nat → Song → Personalization.RerankFeatureVals) :
    ((uid.getD "" = "" ∨ songs = []) →
      Personalization.rerankSongsForUser uid songs feats = songs) ∧
    (Personalization.rerankSongsForUser uid songs feats).length = songs.length ∧
    ((Personalization.rerankSongsForUser uid songs feats).map (·.id)).Perm
      (songs.map (·.id)) ∧
    (uid.getD "" ≠ "" → songs ≠ [] →
      List.Pairwise Personalization.rankedDesc
        (Personalization.rerankSongsForUser uid songs feats) ∧
      ∀ s ∈ Personalization.rerankSongsForUser uid songs feats, ∃ j y,
        songs.get? j = some y ∧
        s = Personalization.setRanking y
          (Personalization.mkRanking j songs.length (feats j y))) := by
  by_cases hpass : uid.getD "" = "" ∨ songs.isEmpty
  · have hout : Personalization.rerankSongsForUser uid songs feats = songs := by
      unfold Personalization.rerankSongsForUser
      rw [if_pos hpass]
    refine ⟨fun _ => hout, by rw [hout], by rw [hout], ?_⟩
    intro h1 h2
    rcases hpass with hp | hp
    · exact absurd hp h1
    · exact absurd (List.isEmpty_iff.mp hp) h2
  · have hout : Personalization.rerankSongsForUser uid songs feats =
        (Personalization.annotateSongs feats songs.length 0 songs).insertionSort
          Personalization.rankedDesc := by
      unfold Personalization.rerankSongsForUser
      rw [if_neg hpass]
    have hperm : ((Personalization.annotateSongs feats songs.length 0
        songs).insertionSort Personalization.rankedDesc).Perm
        (Personalization.annotateSongs feats songs.length 0 songs) :=
      List.perm_insertionSort _ _
    refine ⟨?_, ?_, ?_, ?_⟩
    · intro h
      exfalso
      rcases h with h | h
      · exact hpass (Or.inl h)
      · exact hpass (Or.inr (by rw [h]; rfl))
    · rw [hout, hperm.length_eq,
        Personalization.annotateSongs_length feats songs.length 0 songs]
    · rw [hout]
      have h1 : (((Personalization.annotateSongs feats songs.length 0
          songs).insertionSort Personalization.rankedDesc).map (·.id)).Perm
          ((Personalization.annotateSongs feats songs.length 0 songs).map (·.id)) :=
        hperm.map _
      rw [Personalization.annotateSongs_map_id feats songs.length 0 songs] at h1
      exact h1
    · intro _ _
      constructor
      · rw [hout]
        exact List.sorted_insertionSort Personalization.rankedDesc _
      · intro s hs
        rw [hout] at hs
        have hmem : s ∈ Personalization.annotateSongs feats songs.length 0 songs :=
          hperm.mem_iff.mp hs
        rcases Personalization.annotateSongs_mem feats songs.length 0 songs s hmem
          with ⟨j, y, hj, hy⟩
        exact ⟨j, y, hj, by simpa using hy⟩

/-! ## Claim theorems C10 -/

namespace SaavnApi

theorem setCache_mem (m : SmartCache) (k : String) (v : CacheEntry) :
    ∀ q ∈ setCache m k v, q = (k, v) ∨ q ∈ m := by
  intro q hq
  unfold setCache at hq
  by_cases h : (m.find? (fun p => p.1 = k)).isSome
  · rw [if_pos h] at hq
    rcases List.mem_map.mp hq with ⟨p, hp, hpe⟩
    by_cases hk : p.1 = k
    · left; rw [if_pos hk] at hpe; exact hpe.symm
    · right; rw [if_neg hk] at hpe; exact hpe ▸ hp
  · rw [if_neg h] at hq
    rcases List.mem_append.mp hq with hq | hq
    · right; exact hq
    · left; simpa using hq

theorem setCache_length_le (m : SmartCache) (k : String) (v : CacheEntry) :
    (setCache m k v).length ≤ m.length + 1 := by
  unfold setCache
  by_cases h : (m.find? (fun p => p.1 = k)).isSome
  · rw [if_pos h, List.length_map]
    omega
  · rw [if_neg h, List.length_append]
    simp

/-- The fold step of `findOldestKey`. -/
def oldestStep (best : Option (String × Nat)) (p : String × CacheEntry) :
    Option (String × Nat) :=
  match best with
  | none => some (p.1, p.2.lastAccessAt)
  | some b => if p.2.lastAccessAt < b.2 then some (p.1, p.2.lastAccessAt) else b

theorem findOldestKey_eq_foldl (c : SmartCache) :
    findOldestKey c = (c.foldl oldestStep none).map (·.1) := rfl

theorem oldestFold_mem (c : SmartCache) :
    ∀ (b : Option (String × Nat)) (pr : String × Nat),
      c.foldl oldestStep b = some pr → b = some pr ∨ pr.1 ∈ c.map (·.1) := by
  induction c with
  | nil => intro b pr h; exact Or.inl h
  | cons p rest ih =>
    intro b pr h
    rcases ih (oldestStep b p) pr h with hstep | hmem
    · cases hb : b with
      | none =>
        simp only [hb, oldestStep] at hstep
        have := Option.some.inj hstep
        right
        rw [List.map_cons, ← this]
        exact List.mem_cons_self _ _
      | some bb =>
        simp only [hb, oldestStep] at hstep
        by_cases hlt : p.2.lastAccessAt < bb.2
        · rw [if_pos hlt] at hstep
          have := Option.some.inj hstep
          right
          rw [List.map_cons, ← this]
          exact List.mem_cons_self _ _
        · rw [if_neg hlt] at hstep
          left
          exact hstep
    · right
      rw [List.map_cons]
      exact List.mem_cons_of_mem _ hmem

theorem oldestFold_isSome (c : SmartCache) :
    ∀ b : Option (String × Nat), b.isSome → (c.foldl oldestStep b).isSome := by
  induction c with
  | nil => intro b hb; exact hb
  | cons p rest ih =>
    intro b hb
    refine ih (oldestStep b p) ?_
    cases b with
    | none => exact absurd hb (by simp)
    | some bb =>
      simp only [oldestStep]
      by_cases hlt : p.2.lastAccessAt < bb.2
      · rw [if_pos hlt]; rfl
      · rw [if_neg hlt]; rfl

theorem findOldestKey_mem (c : SmartCache) (k : String)
    (h : findOldestKey c = some k) : k ∈ c.map (·.1) := by
  rw [findOldestKey_eq_foldl] at h
  cases hf : c.foldl oldestStep none with
  | none => rw [hf] at h; exact Option.noConfusion h
  | some pr =>
    rw [hf] at h
    have hk : pr.1 = k := Option.some.inj h
    rcases oldestFold_mem c none pr hf with hb | hmem
    · exact Option.noConfusion hb
    · exact hk ▸ hmem

theorem findOldestKey_isSome (c : SmartCache) (h : c ≠ []) :
    (findOldestKey c).isSome := by
  cases c with
  | nil => exact absurd rfl h
  | cons p rest =>
    rw [findOldestKey_eq_foldl]
    have hs := oldestFold_isSome rest (oldestStep none p) (by simp [oldestStep])
    have heq : List.foldl oldestStep none (p :: rest) =
        List.foldl oldestStep (oldestStep none p) rest := rfl
    show (Option.map (fun x => x.1) (List.foldl oldestStep none (p :: rest))).isSome = true
    rw [heq]
    cases hf : List.foldl oldestStep (oldestStep none p) rest with
    | none =>
      rw [hf] at hs
      exact absurd hs (by simp)
    | some pr => rfl

theorem eraseCache_length_lt (c : SmartCache) (k : String)
    (h : k ∈ c.map (·.1)) : (eraseCache c k).length < c.length := by
  rcases List.mem_map.mp h with ⟨p, hp, hpk⟩
  unfold eraseCache
  refine List.length_filter_lt_length_iff_exists.mpr ⟨p, hp, ?_⟩
  simp [hpk]

theorem eraseCache_keys_nonempty (c : SmartCache) (k : String)
    (h : cacheKeysNonempty c) : cacheKeysNonempty (eraseCache c k) := by
  intro p hp
  exact h p (List.mem_of_mem_filter hp)

theorem setCachedSmartSearch_preserves (c : SmartCache) (k : String)
    (d : List Song) (now : Nat) (hk : k ≠ "") (hK : cacheKeysNonempty c)
    (hlen : c.length ≤ SEARCH_CACHE_MAX_ENTRIES) :
    cacheKeysNonempty (setCachedSmartSearch c k d now) ∧
    (setCachedSmartSearch c k d now).length ≤ SEARCH_CACHE_MAX_ENTRIES := by
  unfold setCachedSmartSearch
  set c1 := setCache c k { updatedAt := now, lastAccessAt := now, data := d } with hc1
  have hK1 : cacheKeysNonempty c1 := by
    intro q hq
    rw [hc1] at hq
    rcases setCache_mem c k _ q hq with hq | hq
    · rw [hq]; exact hk
    · exact hK q hq
  have hlen1 : c1.length ≤ SEARCH_CACHE_MAX_ENTRIES + 1 := by
    rw [hc1]
    have := setCache_length_le c k { updatedAt := now, lastAccessAt := now, data := d }
    omega
  by_cases hsmall : c1.length ≤ SEARCH_CACHE_MAX_ENTRIES
  · have htrim : trimSmartSearchCache c1 = c1 := by
      unfold trimSmartSearchCache
      rw [if_pos hsmall]
    rw [htrim]
    exact ⟨hK1, hsmall⟩
  · have hne : c1 ≠ [] := by
      intro he
      rw [he] at hsmall
      exact hsmall (by simp)
    cases hf : findOldestKey c1 with
    | none =>
      have hsome := findOldestKey_isSome c1 hne
      rw [hf] at hsome
      exact absurd hsome (by simp)
    | some k0 =>
      have hk0mem : k0 ∈ c1.map (·.1) := findOldestKey_mem c1 k0 hf
      have hk0ne : k0 ≠ "" := by
        rcases List.mem_map.mp hk0mem with ⟨p, hp, hpk⟩
        exact hpk ▸ hK1 p hp
      have htrim : trimSmartSearchCache c1 =
          if k0 = "" then c1 else eraseCache c1 k0 := by
        unfold trimSmartSearchCache
        rw [if_neg hsmall, hf]
      rw [htrim, if_neg hk0ne]
      have hlt := eraseCache_length_lt c1 k0 hk0mem
      exact ⟨eraseCache_keys_nonempty c1 k0 hK1, by omega⟩

end SaavnApi

/-- C10.  Cache-size bound: starting from the empty cache, after any
sequence of `setCachedSmartSearch` operations whose keys are non-empty
(every key the program produces comes from `buildSmartSearchCacheKey` and
contains `"::"`), the smart-search cache holds at most
`SEARCH_CACHE_MAX_ENTRIES` (300) entries, and all its keys stay
non-empty. -/
theorem smartSearchCache_bounded (ops : List (String × List Song × Nat))
    (hops : ∀ op ∈ ops, op.1 ≠ "") :
    (SaavnApi.setCachedSmartSearchOps ops []).length ≤ SEARCH_CACHE_MAX_ENTRIES ∧
    SaavnApi.cacheKeysNonempty (SaavnApi.setCachedSmartSearchOps ops []) := by
  have hgen : ∀ (ops' : List (String × List Song × Nat)) (cache : SaavnApi.SmartCache),
      (∀ op ∈ ops', op.1 ≠ "") → SaavnApi.cacheKeysNonempty cache →
      cache.length ≤ SEARCH_CACHE_MAX_ENTRIES →
      (SaavnApi.setCachedSmartSearchOps ops' cache).length ≤
        SEARCH_CACHE_MAX_ENTRIES ∧
      SaavnApi.cacheKeysNonempty (SaavnApi.setCachedSmartSearchOps ops' cache) := by
    intro ops'
    induction ops' with
    | nil => intro cache _ hK hlen; exact ⟨hlen, hK⟩
    | cons op rest ih =>
      intro cache hops' hK hlen
      have hstep := SaavnApi.setCachedSmartSearch_preserves cache op.1 op.2.1 op.2.2
        (hops' op (List.mem_cons_self _ _)) hK hlen
      exact ih (SaavnApi.setCachedSmartSearch cache op.1 op.2.1 op.2.2)
        (fun o ho => hops' o (List.mem_cons_of_mem _ ho)) hstep.1 hstep.2
  have h := hgen ops [] hops (by intro p hp; exact absurd hp (by simp)) (by simp)
  exact ⟨h.1, h.2⟩

/-- Witness for C10 at one concrete insertion with the non-empty key
`"q::_"`. -/
theorem smartSearchCache_bounded_witness :
    (SaavnApi.setCachedSmartSearchOps [("q::_", [exSong], 5)] []).length ≤
      SEARCH_CACHE_MAX_ENTRIES :=
  (smartSearchCache_bounded [("q::_", [exSong], 5)] (by decide)).1

end Fows
